import Mathlib

/-!
# Pomegranate: migration executor and resolver

A shallow embedding of `database.go` (state read, forward / fake / backward
executors), of the resolver entry points of section 4.3, and of the naming,
numbering and loading functions of `files.go`.

Go values are embedded as follows.

* `error` is `Option String`: `none` is `nil`, `some msg` is an error whose
  `Error()` text is `msg`.  `fmt.Errorf("p: %v", err)` is `"p: " ++ msg`.
* A `Database` is a deterministic state machine over a store type `σ`; every
  call may change the store, also when it fails.
* Everything the process does to the outside is appended to a trace of
  `Event`s, so the order of prints, prompts and statements can be stated.
* `context.Context` carries no behaviour of its own here and is left out.
-/

namespace Pomegranate

/-! ## Data model -/

deriving instance DecidableEq for Except

/-- Migration holds a name and the forward and backward statement lists. -/
structure Migration where
  Name : String
  ForwardSQL : List String
  BackwardSQL : List String
deriving DecidableEq

/-- MigrationRecord is one row of `migration_state`. -/
structure MigrationRecord where
  Name : String
  Time : Nat
  Who : String
deriving DecidableEq

/-- MigrationLogRecord is one row of `migration_log`. -/
structure MigrationLogRecord where
  ID : Int
  Time : Nat
  Name : String
  Op : String
  Who : String
deriving DecidableEq

/-- Row is a result row as `rows.Scan` sees it: what scanning it into a state
record, respectively into a log record, yields. -/
structure Row where
  asRecord : Except String MigrationRecord
  asLog : Except String MigrationLogRecord

/-- Database is the three-method interface of `database.go`, as a state
machine over the store `σ`.  `QueryRowContext` returns what `.Scan(&exists)`
yields. -/
structure Database (σ : Type) where
  ExecContext : σ → String → List String → σ × Option String
  QueryContext : σ → String → σ × Except String (List Row)
  QueryRowContext : σ → String → σ × Except String Bool

/-- Event is one externally visible action of a call. -/
inductive Event where
  | exec (query : String) (args : List String)
  | query (query : String)
  | queryRow (query : String)
  | confirm (toRun : List Migration) (label : String)
  | print (text : String)
deriving DecidableEq

/-- World is the store together with the trace of events so far. -/
structure World (σ : Type) where
  store : σ
  trace : List Event

/-- Env bundles the store interface with the collaborators of `database.go`
that live in other files of the package: the confirmation prompt
(`getConfirm`, reading the operator's answer) and the two resolvers. -/
structure Env (σ : Type) where
  db : Database σ
  getConfirm : List Migration → String → Option String
  getForwardMigrationsToRun :
    String → List MigrationRecord → List Migration → Except String (List Migration)
  getMigrationsToReverse :
    String → List MigrationRecord → List Migration → Except String (List Migration)

variable {σ : Type}

/-- Append one event to the trace. -/
def World.emit (w : World σ) (e : Event) : World σ :=
  ⟨w.store, w.trace ++ [e]⟩

/-- Call `db.ExecContext(ctx, q, args...)`, recording the call. -/
def Database.exec (db : Database σ) (w : World σ) (q : String) (args : List String) :
    Option String × World σ :=
  ((db.ExecContext w.store q args).2,
    ⟨(db.ExecContext w.store q args).1, w.trace ++ [Event.exec q args]⟩)

/-! ## State read -/

/-- The existence probe of `GetMigrationStateContext`. -/
def stateExistsSQL : String :=
  "\n      SELECT EXISTS (\n         SELECT 1 \n         FROM   pg_tables\n         WHERE  schemaname = \x27public\x27\n         AND    tablename = \x27migration_state\x27\n       );"

/-- The row query of `GetMigrationStateContext`. -/
def stateRowsSQL : String :=
  "SELECT name, time, who FROM migration_state ORDER BY name"

/-- The `rows.Next()` loop of `GetMigrationStateContext`. -/
def scanRecords : List Row → List MigrationRecord → Except String (List MigrationRecord)
  | [], pastMigrations => .ok pastMigrations
  | r :: rest, pastMigrations =>
    match r.asRecord with
    | .error err => .error ("get past migrations: " ++ err)
    | .ok pm => scanRecords rest (pastMigrations ++ [pm])

/-- GetMigrationStateContext returns the records of `migration_state`, or an
empty list when that table does not exist. -/
def GetMigrationStateContext (db : Database σ) (w : World σ) :
    Except String (List MigrationRecord) × World σ :=
  let w1 : World σ :=
    ⟨(db.QueryRowContext w.store stateExistsSQL).1, w.trace ++ [Event.queryRow stateExistsSQL]⟩
  match (db.QueryRowContext w.store stateExistsSQL).2 with
  | .error err => (.error err, w1)
  | .ok false => (.ok [], w1)
  | .ok true =>
    let w2 : World σ :=
      ⟨(db.QueryContext w1.store stateRowsSQL).1, w1.trace ++ [Event.query stateRowsSQL]⟩
    match (db.QueryContext w1.store stateRowsSQL).2 with
    | .error err => (.error ("get past migrations: " ++ err), w2)
    | .ok rows => (scanRecords rows [], w2)

/-- The existence probe of `GetMigrationLogContext`. -/
def logExistsSQL : String :=
  "\n      SELECT EXISTS (\n         SELECT 1 \n         FROM   pg_tables\n         WHERE  schemaname = \x27public\x27\n         AND    tablename = \x27migration_log\x27\n       );"

/-- The row query of `GetMigrationLogContext`. -/
def logRowsSQL : String :=
  "SELECT id, time, name, op, who FROM migration_log ORDER BY id"

/-- The `rows.Next()` loop of `GetMigrationLogContext`. -/
def scanLogRecords : List Row → List MigrationLogRecord → Except String (List MigrationLogRecord)
  | [], records => .ok records
  | row :: rest, records =>
    match row.asLog with
    | .error err => .error ("get migration log: " ++ err)
    | .ok r => scanLogRecords rest (records ++ [r])

/-- GetMigrationLogContext returns the complete history of `migration_log`,
or an empty list when that table does not exist.  As for
`GetMigrationStateContext`, `.ok l` stands for the Go pair `(l, nil)` whose
slice is built from the literal `[]MigrationLogRecord{}` and so is never nil,
and `.error e` stands for `(nil, e)`. -/
def GetMigrationLogContext (db : Database σ) (w : World σ) :
    Except String (List MigrationLogRecord) × World σ :=
  let w1 : World σ :=
    ⟨(db.QueryRowContext w.store logExistsSQL).1, w.trace ++ [Event.queryRow logExistsSQL]⟩
  match (db.QueryRowContext w.store logExistsSQL).2 with
  | .error err => (.error err, w1)
  | .ok false => (.ok [], w1)
  | .ok true =>
    let w2 : World σ :=
      ⟨(db.QueryContext w1.store logRowsSQL).1, w1.trace ++ [Event.query logRowsSQL]⟩
    match (db.QueryContext w1.store logRowsSQL).2 with
    | .error err => (.error ("get migration log: " ++ err), w2)
    | .ok rows => (scanLogRecords rows [], w2)

/-- The Go return pair `(slice, error)` that a result stands for: a success
carries a non-nil slice and a nil error, a failure a nil slice (`none`) and
the error. -/
def goPair {α : Type} (r : Except String (List α)) : Option (List α) × Option String :=
  match r with
  | .ok l => (some l, none)
  | .error err => (none, some err)

/-! ## Executors -/

/-- The statement loop of `runMigrationSQLContext`. -/
def runStatements (db : Database σ) : List String → World σ → Option String × World σ
  | [], w => (none, w)
  | sql :: rest, w =>
    match (db.exec w sql []).1 with
    | some err =>
      (some ("error running migration: " ++ err), (db.exec w sql []).2.emit (.print "Failure :(\n"))
    | none => runStatements db rest (db.exec w sql []).2

/-- Run the statements of one migration, in list order, stopping at the
first one that fails. -/
def runMigrationSQLContext (db : Database σ) (name : String) (sqlToRun : List String)
    (w : World σ) : Option String × World σ :=
  match runStatements db sqlToRun (w.emit (.print ("Running " ++ name ++ "... "))) with
  | (some err, w1) => (some err, w1)
  | (none, w1) => (none, w1.emit (.print "Success!\n"))

/-- The `for _, mig := range toRun` loop shared by the forward and backward
executors; `sel` picks `mig.ForwardSQL` or `mig.BackwardSQL`. -/
def runMigrations (db : Database σ) (sel : Migration → List String) :
    List Migration → World σ → Option String × World σ
  | [], w => (none, w)
  | mig :: rest, w =>
    match runMigrationSQLContext db mig.Name (sel mig) w with
    | (some err, w1) => (some err, w1)
    | (none, w1) => runMigrations db sel rest w1

/-- Ask the operator, when `confirm` is set; the prompt is recorded. -/
def askConfirm (env : Env σ) (confirm : Bool) (toRun : List Migration) (label : String)
    (w : World σ) : Option String × World σ :=
  if confirm then (env.getConfirm toRun label, w.emit (.confirm toRun label)) else (none, w)

/-- MigrateForwardToContext runs all forward migrations not yet run, up to
and including `name` (all of them when `name` is empty). -/
def MigrateForwardToContext (env : Env σ) (name : String) (allMigrations : List Migration)
    (confirm : Bool) (w : World σ) : Option String × World σ :=
  match GetMigrationStateContext env.db w with
  | (.error err, w1) => (some ("could not get migration state: " ++ err), w1)
  | (.ok state, w1) =>
    match env.getForwardMigrationsToRun name state allMigrations with
    | .error err => (some err, w1)
    | .ok toRun =>
      if toRun.length = 0 then (none, w1.emit (.print "No migrations to run\n"))
      else
        match askConfirm env confirm toRun "Forward" w1 with
        | (some err, w2) => (some err, w2)
        | (none, w2) => runMigrations env.db Migration.ForwardSQL toRun w2

/-- MigrateBackwardToContext runs backward migrations from the most recent
one in state through the one named `name`. -/
def MigrateBackwardToContext (env : Env σ) (name : String) (allMigrations : List Migration)
    (confirm : Bool) (w : World σ) : Option String × World σ :=
  if allMigrations.length = 0 then (some "no migrations provided", w)
  else
    match GetMigrationStateContext env.db w with
    | (.error err, w1) => (some ("could not get migration state: " ++ err), w1)
    | (.ok state, w1) =>
      if state.length = 0 then (some "state is empty. cannot migrate back", w1)
      else
        match env.getMigrationsToReverse name state allMigrations with
        | .error err => (some err, w1)
        | .ok toRun =>
          match askConfirm env confirm toRun "Backward" w1 with
          | (some err, w2) => (some err, w2)
          | (none, w2) => runMigrations env.db Migration.BackwardSQL toRun w2

/-- The statement `FakeMigrateForwardToContext` sends for each migration. -/
def fakeInsertSQL : String := "INSERT INTO migration_state (name) VALUES ($1)"

/-- The `for _, m := range toRun` loop of `FakeMigrateForwardToContext`. -/
def fakeMigrations (db : Database σ) : List Migration → World σ → Option String × World σ
  | [], w => (none, w)
  | m :: rest, w =>
    match (db.exec (w.emit (.print ("Faking " ++ m.Name ++ "... "))) fakeInsertSQL [m.Name]).1 with
    | some err =>
      (some ("error faking migration: " ++ err),
        (db.exec (w.emit (.print ("Faking " ++ m.Name ++ "... "))) fakeInsertSQL [m.Name]).2.emit
          (.print "Failure :(\n"))
    | none =>
      fakeMigrations db rest
        ((db.exec (w.emit (.print ("Faking " ++ m.Name ++ "... "))) fakeInsertSQL [m.Name]).2.emit
          (.print "Success!\n"))

/-- FakeMigrateForwardToContext records the pending forward migrations in
`migration_state` without running their ForwardSQL. -/
def FakeMigrateForwardToContext (env : Env σ) (name : String) (allMigrations : List Migration)
    (confirm : Bool) (w : World σ) : Option String × World σ :=
  match GetMigrationStateContext env.db w with
  | (.error err, w1) => (some ("could not get migration state: " ++ err), w1)
  | (.ok state, w1) =>
    match env.getForwardMigrationsToRun name state allMigrations with
    | .error err => (some err, w1)
    | .ok toRun =>
      if toRun.length = 0 then (none, w1.emit (.print "No migrations to fake\n"))
      else
        match askConfirm env confirm toRun "Forward" w1 with
        | (some err, w2) => (some err, w2)
        | (none, w2) => fakeMigrations env.db toRun w2

/-- MigrateForwardTo is the deprecated entry point: it calls
`MigrateForwardToContext` with `context.TODO()`. -/
def MigrateForwardTo (env : Env σ) (name : String) (allMigrations : List Migration)
    (confirm : Bool) (w : World σ) : Option String × World σ :=
  MigrateForwardToContext env name allMigrations confirm w

/-- MigrateBackwardTo is the deprecated entry point: it calls
`MigrateBackwardToContext` with `context.TODO()`. -/
def MigrateBackwardTo (env : Env σ) (name : String) (allMigrations : List Migration)
    (confirm : Bool) (w : World σ) : Option String × World σ :=
  MigrateBackwardToContext env name allMigrations confirm w

/-- FakeMigrateForwardTo is the deprecated entry point: it calls
`FakeMigrateForwardToContext` with `context.TODO()`. -/
def FakeMigrateForwardTo (env : Env σ) (name : String) (allMigrations : List Migration)
    (confirm : Bool) (w : World σ) : Option String × World σ :=
  FakeMigrateForwardToContext env name allMigrations confirm w

/-! ## Resolver

`getForwardMigrationsToRun`, `getMigrationsToReverse` and the catalog helpers
are defined in a file of the package that is not among the sources at hand;
they are modelled from section 4 of the specification.  The executors above
take the resolvers through `Env`, so what is proved about the executors holds
for any resolver. -/

/-- Modelled from the spec: `IndexOf(name)` of section 4.1, the position of
the migration called `name` in the catalog, if any. -/
def IndexOf (name : String) : List Migration → Option Nat
  | [] => none
  | m :: rest => if m.Name = name then some 0 else (IndexOf name rest).map (· + 1)

/-- Modelled from the spec: `Lookup(name)` of section 4.1, the migration
called `name` in the catalog, if any. -/
def Lookup (name : String) : List Migration → Option Migration
  | [] => none
  | m :: rest => if m.Name = name then some m else Lookup name rest

/-- Modelled from the spec: `ForwardPlan(catalog, state, target)` of section
4.3, the missing `getForwardMigrationsToRun`.  An empty `name` is the unset
target.  `lastIdx` is -1 for an empty state; the result is the catalog
strictly after `lastIdx` up to and including `targetIdx`.  The spec names
the error kinds `UnknownMigration` and `InconsistentState` without their
texts, so the kind stands for the text.  Section 4.3 lists no failure of its
own for an empty catalog: a given target is then unknown, and for an unset
target the final index is -1 and the plan is empty (the truncated
`length - 1` is 0, and the slice of an empty catalog is empty all the
same).  `TestMigrateForwardTo` (case "empty") expects another text of the
real function, "no migrations provided"; the spec does not give it and this
model does not reproduce it. -/
def getForwardMigrationsToRun (name : String) (state : List MigrationRecord)
    (allMigrations : List Migration) : Except String (List Migration) :=
  match (if name = "" then some (allMigrations.length - 1) else IndexOf name allMigrations) with
  | none => .error "UnknownMigration"
  | some targetIdx =>
    match state.getLast? with
    | none => .ok ((allMigrations.take (targetIdx + 1)).drop ((-1 : Int) + 1).toNat)
    | some last =>
      match IndexOf last.Name allMigrations with
      | none => .error "InconsistentState"
      | some lastIdx => .ok ((allMigrations.take (targetIdx + 1)).drop (lastIdx + 1))

/-- Modelled from the spec: the entries of a state, read from the most
recently applied one backwards, through and including the one called `name`
(section 4.3, `BackwardPlan`).  The argument is the state in reverse order. -/
def backThrough (name : String) : List MigrationRecord → List MigrationRecord
  | [] => []
  | r :: rest => if r.Name = name then [r] else r :: backThrough name rest

/-- Modelled from the spec: "mapped to their Migration" of section 4.3; a
state entry whose name the catalog does not know is `InconsistentState`
(section 7). -/
def toMigrations (catalog : List Migration) : List MigrationRecord → Except String (List Migration)
  | [] => .ok []
  | r :: rest =>
    match Lookup r.Name catalog with
    | none => .error "InconsistentState"
    | some m =>
      match toMigrations catalog rest with
      | .error err => .error err
      | .ok ms => .ok (m :: ms)

/-- Modelled from the spec: `BackwardPlan(catalog, state, target)` of section
4.3, the missing `getMigrationsToReverse`.  The texts of `EmptyCatalog` and
`EmptyState` are those `MigrateBackwardToContext` itself uses. -/
def getMigrationsToReverse (name : String) (state : List MigrationRecord)
    (allMigrations : List Migration) : Except String (List Migration) :=
  if allMigrations.length = 0 then .error "no migrations provided"
  else if state.length = 0 then .error "state is empty. cannot migrate back"
  else if name ∈ state.map MigrationRecord.Name then
    toMigrations allMigrations (backThrough name state.reverse)
  else .error "UnknownMigration"

/-- The environment of the package: a store, an operator, and the resolvers
of section 4.3. -/
def packageEnv (db : Database σ) (getConfirm : List Migration → String → Option String) :
    Env σ :=
  ⟨db, getConfirm, getForwardMigrationsToRun, getMigrationsToReverse⟩

/-! ## Stores and operators used in worked examples -/

/-- A store that counts the statements it has accepted and rejects every
statement whose text is `bad`, as Postgres rejects `SELECT 1 / 0`; both
tables are reported missing. -/
def rejecting (bad : String) : Database Nat where
  ExecContext := fun s q _ => if q = bad then (s, some "pq: division by zero") else (s + 1, none)
  QueryContext := fun s _ => (s, .ok [])
  QueryRowContext := fun s _ => (s, .ok false)

/-- A store holding the applied names `names`; statements are accepted and
leave it unchanged, except that a statement with text `bad` is rejected. -/
def holding (names : List String) (bad : String) : Database Nat where
  ExecContext := fun s q _ => if q = bad then (s, some "pq: refused") else (s + 1, none)
  QueryContext := fun s _ => (s, .ok (names.map (fun n => ⟨.ok ⟨n, 0, "pg"⟩, .error "not a log row"⟩)))
  QueryRowContext := fun s _ => (s, .ok true)

/-- A fresh store that rejects every statement whose argument list is
`[bad]`, as a primary-key clash on `migration_state.name` would, and counts
the statements it has accepted. -/
def refusingName (bad : String) : Database Nat where
  ExecContext := fun s _ args =>
    if args = [bad] then (s, some "pq: duplicate key") else (s + 1, none)
  QueryContext := fun s _ => (s, .ok [])
  QueryRowContext := fun s _ => (s, .ok false)

/-- An operator who approves every plan. -/
def approve : List Migration → String → Option String := fun _ _ => none

/-- An operator who declines every plan. -/
def decline : List Migration → String → Option String := fun _ _ => some "declined"

/-- Five migrations `M1 .. M5`, each with one forward and one backward
statement. -/
def fiveMigrations : List Migration :=
  [⟨"M1", ["f1"], ["b1"]⟩, ⟨"M2", ["f2"], ["b2"]⟩, ⟨"M3", ["f3"], ["b3"]⟩,
   ⟨"M4", ["f4"], ["b4"]⟩, ⟨"M5", ["f5a", "f5b"], ["b5"]⟩]

/-- The world before a call: a fresh store and an empty trace. -/
def start : World Nat := ⟨0, []⟩

/-! ## Files: names and numbering (`files.go`)

Go strings are embedded as `String`; byte order on valid UTF-8 is the order
of `String`, lexicographic by code point.  `int` is `Int`, and the 64-bit
range is made explicit where a value is parsed or incremented. -/

/-- Modelled from the spec: the constant `leadingDigits` is declared in a
file of the package that is not at hand.  Section 3 asks for a fixed-width
zero-padded sequence number, and the tests (`00001_init`, `00002_bar`) fix
that width at five. -/
def leadingDigits : Nat := 5

/-- Left-pad a numeral with the character 0 up to `width`; a numeral that is
already that long is kept whole. -/
def padZeros (width : Nat) (numeral : List Char) : List Char :=
  List.replicate (width - numeral.length) '0' ++ numeral

/-- The decimal numeral of an `int`, as the verbs `%d` and `%v` print it. -/
def decimal (num : Int) : String :=
  if num < 0 then String.mk ('-' :: Nat.toDigits 10 num.natAbs)
  else String.mk (Nat.toDigits 10 num.toNat)

/-- zeroPad is `fmt.Sprintf("%"+fmt.Sprintf("0%dd", digits), num)`.  The
format is `%0`, the numeral of `digits`, `d`.  Where `fmt` reads that numeral
as a width, the result is the decimal numeral of `num`, zero-padded to
`digits` characters, the sign of a negative number counting towards the
width.  The width parser of `fmt` (`parsenum`, with `tooLarge`) gives up
when the number read before a further digit exceeds 10^6, that is when
`digits / 10 > 10^6`; `Sprintf` then finds no verb and prints
`%!(NOVERB)` followed by the unused argument, as `fmt`'s own test does for
`%2147483648d`.  `digits` is not negative: the package only ever passes
`leadingDigits`. -/
def zeroPad (num : Int) (digits : Nat) : String :=
  if 1000000 < digits / 10 then "%!(NOVERB)%!(EXTRA int=" ++ decimal num ++ ")"
  else if num < 0 then String.mk ('-' :: padZeros (digits - 1) (Nat.toDigits 10 num.natAbs))
  else String.mk (padZeros digits (Nat.toDigits 10 num.toNat))

/-- makeStubName is `fmt.Sprintf("%s_%s", zeroPad(numPart, leadingDigits), namePart)`. -/
def makeStubName (numPart : Int) (namePart : String) : String :=
  zeroPad numPart leadingDigits ++ "_" ++ namePart

/-- The value of a run of ASCII digits, most significant first. -/
def digitsValue (ds : List Char) : Nat :=
  ds.foldl (fun acc ch => acc * 10 + (ch.toNat - 48)) 0

/-- One character as `strconv.Quote` writes it: the double quote and the
backslash behind a backslash, the control characters of ASCII by their
letter escape or as `\x` with two hexadecimal digits, and every other
character as it is.  Characters beyond ASCII are kept as they are, which is
what `Quote` does with the printable ones; the table of unprintable
characters beyond ASCII is not modelled. -/
def quoteChar (c : Char) : List Char :=
  if c.toNat = 34 then [Char.ofNat 92, c]
  else if c.toNat = 92 then [Char.ofNat 92, c]
  else if c.toNat = 7 then [Char.ofNat 92, 'a']
  else if c.toNat = 8 then [Char.ofNat 92, 'b']
  else if c.toNat = 12 then [Char.ofNat 92, 'f']
  else if c.toNat = 10 then [Char.ofNat 92, 'n']
  else if c.toNat = 13 then [Char.ofNat 92, 'r']
  else if c.toNat = 9 then [Char.ofNat 92, 't']
  else if c.toNat = 11 then [Char.ofNat 92, 'v']
  else if c.toNat < 32 ∨ c.toNat = 127 then
    [Char.ofNat 92, 'x', Nat.digitChar (c.toNat / 16), Nat.digitChar (c.toNat % 16)]
  else [c]

/-- The text in double quotes, as `strconv.Quote` and the verb `%q` give
it. -/
def quote (s : String) : String :=
  String.mk (Char.ofNat 34 :: s.data.flatMap quoteChar ++ [Char.ofNat 34])

/-- The text of a `strconv.NumError` of `Atoi` for the input `s`. -/
def numError (s : String) (err : String) : String :=
  "strconv.Atoi: parsing " ++ quote s ++ ": " ++ err

/-- The digit loop of `strconv.ParseUint` in base 10 for 64 bits, `n` being
the value read so far: a character that is not an ASCII digit is a syntax
error; a further digit when `n` has reached the cutoff `maxUint64/10 + 1`,
or a value beyond `maxUint64`, is a range error.  The short-input path of
`Atoi` gives the same results: below 19 characters no value reaches the
cutoff. -/
def parseDigits (s : String) : List Char → Nat → Except String Nat
  | [], n => .ok n
  | c :: cs, n =>
    if !c.isDigit then .error (numError s "invalid syntax")
    else if 1844674407370955162 ≤ n then .error (numError s "value out of range")
    else if 18446744073709551615 < n * 10 + (c.toNat - 48) then
      .error (numError s "value out of range")
    else parseDigits s cs (n * 10 + (c.toNat - 48))

/-- Atoi is `strconv.Atoi` on a 64-bit platform: an optional sign followed
by one or more ASCII digits, within the range of `int`. -/
def Atoi (s : String) : Except String Int :=
  let body : List Char :=
    match s.data with
    | '-' :: rest => rest
    | '+' :: rest => rest
    | cs => cs
  if body.isEmpty then .error (numError s "invalid syntax")
  else
    match parseDigits s body 0 with
    | .error err => .error err
    | .ok un =>
      if s.data.head? = some '-' then
        if un ≤ 2 ^ 63 then .ok (-(un : Int)) else .error (numError s "value out of range")
      else
        if un < 2 ^ 63 then .ok (un : Int) else .error (numError s "value out of range")

/-- The pieces of a text between occurrences of the character `sep`. -/
def splitChars (sep : Char) : List Char → List (List Char)
  | [] => [[]]
  | c :: cs =>
    if c = sep then [] :: splitChars sep cs
    else
      match splitChars sep cs with
      | [] => [[c]]
      | part :: parts => (c :: part) :: parts

/-- Split is `strings.Split(s, sep)` for a separator of one character. -/
def Split (s : String) (sep : Char) : List String :=
  (splitChars sep s.data).map String.mk

/-- getLatestMigrationFileNumber parses the number in front of the first
`_` of the last name; 0 for an empty list. -/
def getLatestMigrationFileNumber (names : List String) : Except String Int :=
  match names.getLast? with
  | none => .ok 0
  | some last =>
    match Atoi ((Split last '_').headD "") with
    | .error err => .error ("error getting migration number: " ++ err)
    | .ok num => .ok num

/-- The `int` that a mathematical integer wraps to on a 64-bit platform. -/
def wrapInt (n : Int) : Int := (n + 2 ^ 63) % 2 ^ 64 - 2 ^ 63

/-- isMigration is `migrationPattern.MatchString(dir)` for the pattern
`^[\d]{leadingDigits,}_.*$`: from the start of the text a run of at least
`leadingDigits` ASCII digits, which ends at a `_`, then any characters up to
the end of the text; `.` does not match a line feed and `$` is the end of the
text. -/
def isMigration (dir : String) : Bool :=
  decide (leadingDigits ≤ (dir.data.takeWhile Char.isDigit).length) &&
    match dir.data.dropWhile Char.isDigit with
    | '_' :: label => label.all (fun c => c != '\n')
    | _ => false

/-! ## Files: reading migrations (`files.go`) -/

/-- DirEntry is what the loader uses of `fs.DirEntry`. -/
structure DirEntry where
  Name : String
  IsDir : Bool
deriving DecidableEq

/-- ReadDirFS is what the loader uses of `fs.ReadDirFS`.  A file is
addressed by directory and name (`path.Join` is not modelled); `Open` gives
the error of `Open`, or else what `io.ReadAll` gives on the opened file. -/
structure ReadDirFS where
  ReadDir : String → Except String (List DirEntry)
  Open : String → String → Except String (Except String String)

/-- Outcome of a Go call that may panic. -/
inductive Outcome (α : Type) where
  | done (a : α)
  | panic (msg : String)
deriving DecidableEq

/-- `strings.HasSuffix`. -/
def HasSuffix (s suffix : String) : Bool := suffix.data.isSuffixOf s.data

/-- Whether `sub` occurs in the text, on characters. -/
def containsChars (sub : List Char) : List Char → Bool
  | [] => sub.isEmpty
  | c :: cs => sub.isPrefixOf (c :: cs) || containsChars sub cs

/-- `strings.Contains`. -/
def Contains (s substr : String) : Bool := containsChars substr.data s.data

/-- getMigrationDirectoryNames returns the sub-directories that match the
migration pattern, in listing order. -/
def getMigrationDirectoryNames (dir : ReadDirFS) : Except String (List String) :=
  match dir.ReadDir "." with
  | .error err => .error ("error listing migration files: " ++ err)
  | .ok files =>
    .ok ((files.filter (fun file => file.IsDir && isMigration file.Name)).map DirEntry.Name)

/-- The closure `readEntry` of `readMigration`: the contents of a file of the
migration directory; it panics when the file cannot be opened or read. -/
def readEntry (dir : ReadDirFS) (migrationName sqlFilename : String) : Outcome String :=
  match dir.Open migrationName sqlFilename with
  | .error err => .panic ("Unable to open " ++ quote sqlFilename ++ ": " ++ err)
  | .ok (.error err) => .panic ("Unable to read " ++ quote sqlFilename ++ ": " ++ err)
  | .ok (.ok b) => .done b

/-- The loop of `readMigration` over the entries of the migration
directory. -/
def readEntries (dir : ReadDirFS) (migrationName : String) :
    List DirEntry → Migration → Outcome Migration
  | [], m => .done m
  | migration :: rest, m =>
    if HasSuffix migration.Name ".sql" then
      if Contains migration.Name "forward" then
        match readEntry dir migrationName migration.Name with
        | .panic msg => .panic msg
        | .done text =>
          readEntries dir migrationName rest
            ⟨m.Name, m.ForwardSQL ++ [text], m.BackwardSQL⟩
      else if Contains migration.Name "backward" then
        match readEntry dir migrationName migration.Name with
        | .panic msg => .panic msg
        | .done text =>
          readEntries dir migrationName rest
            ⟨m.Name, m.ForwardSQL, m.BackwardSQL ++ [text]⟩
      else readEntries dir migrationName rest m
    else readEntries dir migrationName rest m

/-- readMigration reads the statement files of the migration directory
`migrationName` into a `Migration`. -/
def readMigration (dir : ReadDirFS) (migrationName : String) :
    Outcome (Migration × Option String) :=
  match dir.ReadDir migrationName with
  | .error err => .done (⟨migrationName, [], []⟩, some ("Unable to list directory: " ++ err))
  | .ok migrationDirs =>
    match readEntries dir migrationName migrationDirs ⟨migrationName, [], []⟩ with
    | .panic msg => .panic msg
    | .done m => .done (m, none)

/-- The loop of `ReadMigrationFS` over the directory names; the diagnostic
`fmt.Println(m, err)` is not modelled. -/
def readMigrations (migFolder : ReadDirFS) :
    List String → List Migration → Outcome (Except String (List Migration))
  | [], migs => .done (.ok migs)
  | name :: rest, migs =>
    match readMigration migFolder name with
    | .panic msg => .panic msg
    | .done (_, some err) => .done (.error err)
    | .done (m, none) => readMigrations migFolder rest (migs ++ [m])

/-- ReadMigrationFS reads every migration directory of the folder. -/
def ReadMigrationFS (migFolder : ReadDirFS) : Outcome (Except String (List Migration)) :=
  match getMigrationDirectoryNames migFolder with
  | .error err => .done (.error err)
  | .ok names => readMigrations migFolder names []

/-- The name `NewMigration` gives the directory it creates: the latest number
plus one, as an `int`, in front of `name`.  Writing the stubs is not
modelled. -/
def newMigrationName (dir : ReadDirFS) (name : String) : Except String String :=
  match getMigrationDirectoryNames dir with
  | .error err => .error ("error making new migration: " ++ err)
  | .ok names =>
    match getLatestMigrationFileNumber names with
    | .error err => .error ("error making new migration: " ++ err)
    | .ok latestNum => .ok (makeStubName (wrapInt (latestNum + 1)) name)

/-- The name `InitMigration` gives the directory it creates,
`makeStubName(1, "init")`.  Writing the stubs is not modelled. -/
def initMigrationName : String := makeStubName 1 "init"

/-- A directory called `name` is picked up by the loader: whenever a folder
lists it as a directory, `getMigrationDirectoryNames` succeeds and returns
it. -/
def PickedUp (name : String) : Prop :=
  ∀ (dir : ReadDirFS) (files : List DirEntry), dir.ReadDir "." = .ok files →
    (⟨name, true⟩ : DirEntry) ∈ files →
    ∃ names, getMigrationDirectoryNames dir = .ok names ∧ name ∈ names

/-- A folder whose only migration has the largest `int` as its number. -/
def maxIntFolder : ReadDirFS where
  ReadDir := fun _ => .ok [⟨"9223372036854775807_a", true⟩]
  Open := fun d f => .ok (.ok (d ++ "/" ++ f))

/-- The folder `maxIntFolder` once `NewMigration` has created its directory
there; a listing is sorted by file name, and `-` sorts before the digits. -/
def maxIntFolderAfter : ReadDirFS where
  ReadDir := fun _ =>
    .ok [⟨"-9223372036854775808_c", true⟩, ⟨"9223372036854775807_a", true⟩]
  Open := fun d f => .ok (.ok (d ++ "/" ++ f))

/-- The directory of `TestReadMigrations`, with one more sub-directory whose
label holds a line feed, and a regular file with a migration name. -/
def testFolder : ReadDirFS where
  ReadDir := fun d =>
    if d = "." then
      .ok [⟨"00001_foo", true⟩, ⟨"00002_bar", true⟩, ⟨"00003_a\nb", true⟩,
        ⟨"00004_file", false⟩, ⟨"00005_sos", true⟩, ⟨"20181106123456_baz", true⟩,
        ⟨"other_dir", true⟩]
    else if d = "00005_sos" then
      .ok [⟨"backward.sql", false⟩, ⟨"forward_1.sql", false⟩, ⟨"forward_2.sql", false⟩,
        ⟨"forward_backward.sql", false⟩, ⟨"notes.txt", false⟩, ⟨"forward.sql.bak", false⟩]
    else .ok [⟨"backward.sql", false⟩, ⟨"forward.sql", false⟩]
  Open := fun d f => .ok (.ok (d ++ "/" ++ f))

/-- The numeral of `n` in exactly `width` decimal places, most significant
first (the places of `n` beyond `width` are dropped). -/
def fixedWidth : Nat → Nat → List Char
  | 0, _ => []
  | width + 1, n => fixedWidth width (n / 10) ++ [Nat.digitChar (n % 10)]

/-- The naming convention in words: at least `leadingDigits` decimal digits,
then `_`, then a label that holds no line feed. -/
def MigrationName (name : String) : Prop :=
  ∃ ds label, name.data = ds ++ '_' :: label ∧ leadingDigits ≤ ds.length ∧
    (∀ c ∈ ds, c.isDigit = true) ∧ '\n' ∉ label

/-- A file name that marks forward statements: it ends in `.sql` and
contains `forward`. -/
def marksForward (file : DirEntry) : Bool :=
  HasSuffix file.Name ".sql" && Contains file.Name "forward"

/-- A file name that marks backward statements: it ends in `.sql`, contains
`backward` and does not contain `forward`. -/
def marksBackward (file : DirEntry) : Bool :=
  HasSuffix file.Name ".sql" && Contains file.Name "backward" && !Contains file.Name "forward"

/-! ## Observations on traces -/

/-- A statement as sent through `ExecContext`: its text and its arguments. -/
abbrev Call := String × List String

/-- The `ExecContext` calls of a trace, in the order they were sent. -/
def sent : List Event → List Call
  | [] => []
  | .exec q args :: es => (q, args) :: sent es
  | .query _ :: es => sent es
  | .queryRow _ :: es => sent es
  | .confirm _ _ :: es => sent es
  | .print _ :: es => sent es

/-- The confirmation prompts of a trace, in order. -/
def asked : List Event → List (List Migration × String)
  | [] => []
  | .confirm toRun label :: es => (toRun, label) :: asked es
  | .exec _ _ :: es => asked es
  | .query _ :: es => asked es
  | .queryRow _ :: es => asked es
  | .print _ :: es => asked es

/-- A migration statement is sent with no arguments. -/
def plain (sql : String) : Call := (sql, [])

/-- The call the fake executor sends for a migration. -/
def fakeCall (m : Migration) : Call := (fakeInsertSQL, [m.Name])

/-- The store reached when every call of the list, sent in order starting
from store `s`, succeeds; `none` when one of them fails. -/
def execAll (db : Database σ) : σ → List Call → Option σ
  | s, [] => some s
  | s, c :: cs =>
    match (db.ExecContext s c.1 c.2).2 with
    | some _ => none
    | none => execAll db (db.ExecContext s c.1 c.2).1 cs

/-- The events a call adds to the trace `before`, giving `after`, hold at
most one confirmation prompt and no statement is sent ahead of it: they split
into a first part without statements and with at most one prompt, and a
second part without prompts. -/
def PromptsOnceAndFirst (before after : List Event) : Prop :=
  ∃ pre post, after = before ++ pre ++ post ∧ sent pre = [] ∧ (asked pre).length ≤ 1 ∧
    asked post = []

/-! ## Lemmas -/

theorem sent_append (xs ys : List Event) : sent (xs ++ ys) = sent xs ++ sent ys := by
  induction xs with
  | nil => rfl
  | cons e es ih => cases e <;> simp [sent, ih]

theorem asked_append (xs ys : List Event) : asked (xs ++ ys) = asked xs ++ asked ys := by
  induction xs with
  | nil => rfl
  | cons e es ih => cases e <;> simp [asked, ih]

theorem execAll_append (db : Database σ) (s : σ) (xs ys : List Call) :
    execAll db s (xs ++ ys) = (execAll db s xs).bind (fun s1 => execAll db s1 ys) := by
  induction xs generalizing s with
  | nil => rfl
  | cons c cs ih =>
    simp only [List.cons_append, execAll]
    cases h : (db.ExecContext s c.1 c.2).2 with
    | none => simpa using ih _
    | some e => rfl

theorem runStatements_ok (db : Database σ) (stmts : List String) (w : World σ) (s1 : σ)
    (h : execAll db w.store (stmts.map plain) = some s1) :
    ∃ w1, runStatements db stmts w = (none, w1) ∧ w1.store = s1 ∧
      sent w1.trace = sent w.trace ++ stmts.map plain ∧ asked w1.trace = asked w.trace := by
  induction stmts generalizing w with
  | nil =>
    refine ⟨w, rfl, ?_, by simp, rfl⟩
    simpa [execAll] using h
  | cons q qs ih =>
    simp only [List.map_cons, execAll, plain] at h
    cases hq : (db.ExecContext w.store q []).2 with
    | some e => simp [hq] at h
    | none =>
      simp only [hq] at h
      obtain ⟨w1, hrun, hst, hsent, hask⟩ := ih (db.exec w q []).2 h
      refine ⟨w1, ?_, hst, ?_, ?_⟩
      · simp [runStatements, Database.exec, hq] at hrun ⊢
        exact hrun
      · simp [hsent, Database.exec, sent_append, sent, plain]
      · simp [hask, Database.exec, asked_append, asked]

theorem runStatements_fail (db : Database σ) (ss : List String) (f : String) (ts : List String)
    (w : World σ) (s1 : σ) (e : String)
    (h : execAll db w.store (ss.map plain) = some s1)
    (hf : (db.ExecContext s1 f []).2 = some e) :
    ∃ w1, runStatements db (ss ++ f :: ts) w = (some ("error running migration: " ++ e), w1) ∧
      w1.store = (db.ExecContext s1 f []).1 ∧
      sent w1.trace = sent w.trace ++ (ss ++ [f]).map plain ∧ asked w1.trace = asked w.trace := by
  induction ss generalizing w with
  | nil =>
    simp only [List.map_nil, execAll, Option.some.injEq] at h
    subst h
    refine ⟨(db.exec w f []).2.emit (.print "Failure :(\n"), ?_, ?_, ?_, ?_⟩
    · simp only [List.nil_append, runStatements, Database.exec, hf]
    · simp [World.emit, Database.exec]
    · simp [World.emit, Database.exec, sent_append, sent, plain]
    · simp [World.emit, Database.exec, asked_append, asked]
  | cons q qs ih =>
    simp only [List.map_cons, execAll, plain] at h
    cases hq : (db.ExecContext w.store q []).2 with
    | some e1 => simp [hq] at h
    | none =>
      simp only [hq] at h
      obtain ⟨w1, hrun, hst, hsent, hask⟩ := ih (db.exec w q []).2 h
      refine ⟨w1, ?_, hst, ?_, ?_⟩
      · simp [runStatements, Database.exec, hq] at hrun ⊢
        exact hrun
      · simp [hsent, Database.exec, sent_append, sent, plain]
      · simp [hask, Database.exec, asked_append, asked]

theorem runMigrationSQLContext_ok (db : Database σ) (name : String) (stmts : List String)
    (w : World σ) (s1 : σ) (h : execAll db w.store (stmts.map plain) = some s1) :
    ∃ w1, runMigrationSQLContext db name stmts w = (none, w1) ∧ w1.store = s1 ∧
      sent w1.trace = sent w.trace ++ stmts.map plain ∧ asked w1.trace = asked w.trace := by
  obtain ⟨w1, hrun, hst, hsent, hask⟩ :=
    runStatements_ok db stmts (w.emit (.print ("Running " ++ name ++ "... "))) s1 h
  refine ⟨w1.emit (.print "Success!\n"), ?_, ?_, ?_, ?_⟩
  · simp [runMigrationSQLContext, hrun]
  · simpa [World.emit] using hst
  · simpa [World.emit, sent_append, sent] using hsent
  · simpa [World.emit, asked_append, asked] using hask

theorem runMigrationSQLContext_fail (db : Database σ) (name : String) (ss : List String)
    (f : String) (ts : List String) (w : World σ) (s1 : σ) (e : String)
    (h : execAll db w.store (ss.map plain) = some s1)
    (hf : (db.ExecContext s1 f []).2 = some e) :
    ∃ w1, runMigrationSQLContext db name (ss ++ f :: ts) w
        = (some ("error running migration: " ++ e), w1) ∧
      w1.store = (db.ExecContext s1 f []).1 ∧
      sent w1.trace = sent w.trace ++ (ss ++ [f]).map plain ∧ asked w1.trace = asked w.trace := by
  obtain ⟨w1, hrun, hst, hsent, hask⟩ :=
    runStatements_fail db ss f ts (w.emit (.print ("Running " ++ name ++ "... "))) s1 e h hf
  refine ⟨w1, ?_, hst, ?_, ?_⟩
  · simp [runMigrationSQLContext, hrun]
  · simpa [World.emit, sent_append, sent] using hsent
  · simpa [World.emit, asked_append, asked] using hask

theorem runMigrations_ok (db : Database σ) (sel : Migration → List String)
    (plan : List Migration) (w : World σ) (s1 : σ)
    (h : execAll db w.store ((plan.flatMap sel).map plain) = some s1) :
    ∃ w1, runMigrations db sel plan w = (none, w1) ∧ w1.store = s1 ∧
      sent w1.trace = sent w.trace ++ (plan.flatMap sel).map plain ∧
      asked w1.trace = asked w.trace := by
  induction plan generalizing w with
  | nil =>
    refine ⟨w, rfl, ?_, by simp, rfl⟩
    simpa [execAll] using h
  | cons m rest ih =>
    simp only [List.flatMap_cons, List.map_append, execAll_append, Option.bind_eq_some] at h
    obtain ⟨s0, h0, hrest⟩ := h
    obtain ⟨w0, hrun0, hst0, hsent0, hask0⟩ := runMigrationSQLContext_ok db m.Name (sel m) w s0 h0
    obtain ⟨w1, hrun, hst, hsent, hask⟩ := ih w0 (by rw [hst0]; exact hrest)
    refine ⟨w1, ?_, hst, ?_, ?_⟩
    · simp [runMigrations, hrun0, hrun]
    · simp [hsent, hsent0]
    · simp [hask, hask0]

theorem runMigrations_fail (db : Database σ) (sel : Migration → List String)
    (pre : List Migration) (m : Migration) (post : List Migration)
    (ss : List String) (f : String) (ts : List String) (w : World σ) (s1 : σ) (e : String)
    (hm : sel m = ss ++ f :: ts)
    (h : execAll db w.store ((pre.flatMap sel ++ ss).map plain) = some s1)
    (hf : (db.ExecContext s1 f []).2 = some e) :
    ∃ w1, runMigrations db sel (pre ++ m :: post) w
        = (some ("error running migration: " ++ e), w1) ∧
      w1.store = (db.ExecContext s1 f []).1 ∧
      sent w1.trace = sent w.trace ++ (pre.flatMap sel ++ ss ++ [f]).map plain ∧
      asked w1.trace = asked w.trace := by
  induction pre generalizing w with
  | nil =>
    simp only [List.flatMap_nil, List.nil_append] at h
    obtain ⟨w1, hrun, hst, hsent, hask⟩ :=
      runMigrationSQLContext_fail db m.Name ss f ts w s1 e h hf
    refine ⟨w1, ?_, hst, ?_, hask⟩
    · simp [runMigrations, hm, hrun]
    · simpa using hsent
  | cons p rest ih =>
    simp only [List.flatMap_cons, List.append_assoc, List.map_append, execAll_append,
      Option.bind_eq_some] at h
    obtain ⟨s0, h0, hrest⟩ := h
    obtain ⟨w0, hrun0, hst0, hsent0, hask0⟩ := runMigrationSQLContext_ok db p.Name (sel p) w s0 h0
    obtain ⟨w1, hrun, hst, hsent, hask⟩ := ih w0 (by
      rw [hst0, List.map_append, execAll_append, Option.bind_eq_some]; exact hrest)
    refine ⟨w1, ?_, hst, ?_, ?_⟩
    · simp [runMigrations, hrun0, hrun]
    · simp [hsent, hsent0]
    · simp [hask, hask0]


theorem GetMigrationStateContext_quiet (db : Database σ) (w : World σ) :
    sent (GetMigrationStateContext db w).2.trace = sent w.trace ∧
      asked (GetMigrationStateContext db w).2.trace = asked w.trace := by
  unfold GetMigrationStateContext
  cases h1 : (db.QueryRowContext w.store stateExistsSQL).2 with
  | error err => simp [sent_append, asked_append, sent, asked]
  | ok b =>
    cases b with
    | false => simp [sent_append, asked_append, sent, asked]
    | true =>
      cases h2 : (db.QueryContext (db.QueryRowContext w.store stateExistsSQL).1 stateRowsSQL).2
        <;> simp [h2, sent_append, asked_append, sent, asked]

theorem state_read_sent (db : Database σ) (w w1 : World σ)
    (r : Except String (List MigrationRecord)) (h : GetMigrationStateContext db w = (r, w1)) :
    sent w1.trace = sent w.trace ∧ asked w1.trace = asked w.trace := by
  have hq := GetMigrationStateContext_quiet db w
  rw [h] at hq
  exact hq

/-! ## Forward execution -/

/-- C1 (stop on first failure, forward): with confirm off, when the resolved
plan is `pre ++ m :: post`, the forward statements of `pre` and the
statements `ss` of `m` before `f` all succeed, and `f` then fails, the call
returns a non-nil error and the statements it has sent are exactly those of
`pre`, then `ss`, then `f`: nothing after `f` in `m` and nothing of `post`. -/
theorem forward_stops_at_first_failure (env : Env σ) (name : String)
    (allMigrations : List Migration) (w w1 : World σ) (state : List MigrationRecord)
    (pre : List Migration) (m : Migration) (post : List Migration)
    (ss : List String) (f : String) (ts : List String) (s1 : σ) (e : String)
    (hstate : GetMigrationStateContext env.db w = (.ok state, w1))
    (hplan : env.getForwardMigrationsToRun name state allMigrations = .ok (pre ++ m :: post))
    (hm : m.ForwardSQL = ss ++ f :: ts)
    (hok : execAll env.db w1.store ((pre.flatMap Migration.ForwardSQL ++ ss).map plain) = some s1)
    (hf : (env.db.ExecContext s1 f []).2 = some e) :
    ∃ err w2, MigrateForwardToContext env name allMigrations false w = (some err, w2) ∧
      sent w2.trace
        = sent w.trace ++ (pre.flatMap Migration.ForwardSQL ++ ss ++ [f]).map plain := by
  obtain ⟨w2, hrun, _, hsent, _⟩ :=
    runMigrations_fail env.db Migration.ForwardSQL pre m post ss f ts w1 s1 e hm hok hf
  refine ⟨"error running migration: " ++ e, w2, ?_, ?_⟩
  · simp [MigrateForwardToContext, hstate, hplan, askConfirm, hrun]
  · rw [hsent, (state_read_sent env.db w w1 _ hstate).1]

/-- Worked instance of C1: `M1 .. M5` on a fresh store that rejects the
second statement of `M5`. -/
theorem forward_stops_at_first_failure_witness :
    ∃ err w2, MigrateForwardToContext (packageEnv (rejecting "f5b") approve) ""
        fiveMigrations false start = (some err, w2) ∧
      sent w2.trace = sent start.trace ++
        ((fiveMigrations.take 4).flatMap Migration.ForwardSQL ++ ["f5a"] ++ ["f5b"]).map plain :=
  forward_stops_at_first_failure (packageEnv (rejecting "f5b") approve) "" fiveMigrations start
    ⟨0, [.queryRow stateExistsSQL]⟩ [] (fiveMigrations.take 4) ⟨"M5", ["f5a", "f5b"], ["b5"]⟩ []
    ["f5a"] "f5b" [] 5 "pq: division by zero" rfl (by decide) rfl (by decide) (by decide)

/-- C2 (forward execution order): with confirm off, when every forward
statement of the resolved plan succeeds, the call returns nil and the
statements it has sent are exactly the ForwardSQL lists of the plan's
migrations, concatenated in plan order. -/
theorem forward_sends_plan_in_order (env : Env σ) (name : String)
    (allMigrations : List Migration) (w w1 : World σ) (state : List MigrationRecord)
    (plan : List Migration) (s1 : σ)
    (hstate : GetMigrationStateContext env.db w = (.ok state, w1))
    (hplan : env.getForwardMigrationsToRun name state allMigrations = .ok plan)
    (hok : execAll env.db w1.store ((plan.flatMap Migration.ForwardSQL).map plain) = some s1) :
    ∃ w2, MigrateForwardToContext env name allMigrations false w = (none, w2) ∧
      w2.store = s1 ∧
      sent w2.trace = sent w.trace ++ (plan.flatMap Migration.ForwardSQL).map plain := by
  obtain ⟨w2, hrun, hst, hsent, _⟩ :=
    runMigrations_ok env.db Migration.ForwardSQL plan w1 s1 hok
  by_cases hlen : plan.length = 0
  · have hnil : plan = [] := List.length_eq_zero.mp hlen
    subst hnil
    refine ⟨w1.emit (.print "No migrations to run\n"), ?_, ?_, ?_⟩
    · simp [MigrateForwardToContext, hstate, hplan]
    · simpa [World.emit, execAll] using hok
    · simp [World.emit, sent_append, sent, (state_read_sent env.db w w1 _ hstate).1]
  · refine ⟨w2, ?_, hst, ?_⟩
    · simp [MigrateForwardToContext, hstate, hplan, hlen, askConfirm, hrun]
    · rw [hsent, (state_read_sent env.db w w1 _ hstate).1]

/-- Worked instance of C2: `M1 .. M5` on a fresh store that accepts every
statement. -/
theorem forward_sends_plan_in_order_witness :
    ∃ w2, MigrateForwardToContext (packageEnv (rejecting "never") approve) ""
        fiveMigrations false start = (none, w2) ∧
      w2.store = 6 ∧
      sent w2.trace = sent start.trace ++
        (fiveMigrations.flatMap Migration.ForwardSQL).map plain :=
  forward_sends_plan_in_order (packageEnv (rejecting "never") approve) "" fiveMigrations start
    ⟨0, [.queryRow stateExistsSQL]⟩ [] fiveMigrations 6 rfl (by decide) (by decide)

/-! ## Forward plan -/

theorem names_nodup_of_sorted (catalog : List Migration)
    (h : (catalog.map Migration.Name).Pairwise (· < ·)) : (catalog.map Migration.Name).Nodup :=
  List.Pairwise.imp (fun hab => ne_of_lt hab) h

theorem IndexOf_of_position (catalog : List Migration) (p : Nat) (n : String)
    (hnd : (catalog.map Migration.Name).Nodup)
    (hp : (catalog[p]?).map Migration.Name = some n) : IndexOf n catalog = some p := by
  induction catalog generalizing p with
  | nil => simp at hp
  | cons m rest ih =>
    rw [List.map_cons, List.nodup_cons] at hnd
    cases p with
    | zero =>
      have hmn : m.Name = n := by simpa using hp
      simp [IndexOf, hmn]
    | succ q =>
      simp only [List.getElem?_cons_succ] at hp
      have hmem : n ∈ rest.map Migration.Name := by
        rw [← List.getElem?_map] at hp
        exact List.getElem?_mem hp
      have hne : m.Name ≠ n := fun h => hnd.1 (h ▸ hmem)
      simp [IndexOf, hne, ih q hnd.2 hp]

theorem position_lt_length (catalog : List Migration) (p : Nat) (n : String)
    (hp : (catalog[p]?).map Migration.Name = some n) : p < catalog.length := by
  by_contra hge
  rw [List.getElem?_eq_none (Nat.le_of_not_lt hge)] at hp
  simp at hp

theorem slice_length {α : Type} (xs : List α) (t l1 : Nat) (ht : t < xs.length) :
    ((xs.take (t + 1)).drop l1).length = t + 1 - l1 := by
  rw [List.length_drop, List.length_take, Nat.min_eq_left (by omega)]

theorem slice_getElem? {α : Type} (xs : List α) (t l1 k : Nat) (hk : k < t + 1 - l1) :
    ((xs.take (t + 1)).drop l1)[k]? = xs[l1 + k]? := by
  rw [List.getElem?_drop, List.getElem?_take_of_lt (by omega)]

theorem getForwardMigrationsToRun_eval (catalog : List Migration)
    (state : List MigrationRecord) (name : String) (t l1 : Nat) (_hlen : t < catalog.length)
    (ht : (if name = "" then some (catalog.length - 1) else IndexOf name catalog) = some t)
    (hl : (state.getLast? = none ∧ l1 = 0) ∨
      ∃ last, state.getLast? = some last ∧ IndexOf last.Name catalog = some (l1 - 1) ∧ 0 < l1) :
    getForwardMigrationsToRun name state catalog = .ok ((catalog.take (t + 1)).drop l1) := by
  unfold getForwardMigrationsToRun
  rw [ht]
  rcases hl with ⟨hnone, hz⟩ | ⟨last, hsome, hidx, hpos⟩
  · rw [hnone, hz]
    rfl
  · rw [hsome]
    simp only [hidx]
    rw [Nat.sub_add_cancel hpos]

/-- C3 (forward plan): for a catalog sorted by name, with `lastIdx` the
catalog position of the last state entry (-1 for an empty state) and
`targetIdx` the position of the target (the last position when the target is
unset), the resolver succeeds and its plan is the catalog entries at the
positions `lastIdx + 1 .. targetIdx`, ascending; the plan is empty when
`targetIdx <= lastIdx`, it is the whole catalog for an empty state and unset
target, and it is the plan `MigrateForwardToContext` runs. -/
theorem forward_plan_is_catalog_slice (catalog : List Migration)
    (state : List MigrationRecord) (name : String) (lastIdx targetIdx : Int)
    (hsorted : (catalog.map Migration.Name).Pairwise (· < ·))
    (hlast : (state = [] ∧ lastIdx = -1) ∨
      ∃ (last : MigrationRecord) (p : Nat), state.getLast? = some last ∧
        (catalog[p]?).map Migration.Name = some last.Name ∧ lastIdx = (p : Int))
    (htarget : (name = "" ∧ catalog ≠ [] ∧ targetIdx = (catalog.length : Int) - 1) ∨
      (name ≠ "" ∧
        ∃ t : Nat, (catalog[t]?).map Migration.Name = some name ∧ targetIdx = (t : Int))) :
    ∃ plan, getForwardMigrationsToRun name state catalog = .ok plan ∧
      plan.length = (targetIdx - lastIdx).toNat ∧
      (∀ k, k < plan.length → plan[k]? = catalog[(lastIdx + 1).toNat + k]?) ∧
      (targetIdx ≤ lastIdx → plan = []) ∧
      (state = [] → name = "" → plan = catalog) ∧
      (∀ (db : Database σ) (getConfirm : List Migration → String → Option String)
          (w w1 : World σ), GetMigrationStateContext db w = (.ok state, w1) →
        MigrateForwardToContext (packageEnv db getConfirm) name catalog false w
          = if plan.length = 0 then (none, w1.emit (.print "No migrations to run\n"))
            else runMigrations db Migration.ForwardSQL plan w1) := by
  have hnd := names_nodup_of_sorted catalog hsorted
  have hT : ∃ t : Nat, targetIdx = (t : Int) ∧ t < catalog.length ∧
      (if name = "" then some (catalog.length - 1) else IndexOf name catalog) = some t := by
    rcases htarget with ⟨hn, hne, ht⟩ | ⟨hn, t, htp, ht⟩
    · have hpos : 0 < catalog.length := List.length_pos.mpr hne
      exact ⟨catalog.length - 1, by omega, by omega, by simp [hn]⟩
    · exact ⟨t, ht, position_lt_length catalog t name htp,
        by simp [hn, IndexOf_of_position catalog t name hnd htp]⟩
  have hL : ∃ l1 : Nat, lastIdx + 1 = (l1 : Int) ∧ (state = [] → l1 = 0) ∧
      ((state.getLast? = none ∧ l1 = 0) ∨
        ∃ last, state.getLast? = some last ∧ IndexOf last.Name catalog = some (l1 - 1) ∧
          0 < l1) := by
    rcases hlast with ⟨hs, hl⟩ | ⟨last, p, hsome, hp, hl⟩
    · exact ⟨0, by omega, fun _ => rfl, Or.inl ⟨by simp [hs], rfl⟩⟩
    · refine ⟨p + 1, by omega, ?_, Or.inr ⟨last, hsome, ?_, by omega⟩⟩
      · intro hs
        simp [hs] at hsome
      · simpa using IndexOf_of_position catalog p last.Name hnd hp
  obtain ⟨t, htI, htlen, hteval⟩ := hT
  obtain ⟨l1, hlI, hl0, hleval⟩ := hL
  have hplan := getForwardMigrationsToRun_eval catalog state name t l1 htlen hteval hleval
  have hlenplan := slice_length catalog t l1 htlen
  refine ⟨(catalog.take (t + 1)).drop l1, hplan, ?_, ?_, ?_, ?_, ?_⟩
  · rw [hlenplan]
    omega
  · intro k hk
    rw [hlenplan] at hk
    rw [slice_getElem? catalog t l1 k hk, hlI]
    rfl
  · intro hle
    apply List.eq_nil_of_length_eq_zero
    rw [hlenplan]
    omega
  · intro hs hn
    have h0 : l1 = 0 := hl0 hs
    have ht1 : t = catalog.length - 1 := by
      simp only [hn, if_true, Option.some.injEq] at hteval
      exact hteval.symm
    rw [h0, List.drop_zero, List.take_of_length_le (by omega)]
  · intro db getConfirm w w1 hstate
    simp only [MigrateForwardToContext, packageEnv, hstate, hplan, askConfirm]
    rfl

/-- Worked instance of C3: `M1`, `M2` applied and target `M4` out of
`M1 .. M5`, so `lastIdx = 1` and `targetIdx = 3`. -/
theorem forward_plan_is_catalog_slice_witness :
    ∃ plan, getForwardMigrationsToRun "M4" [⟨"M1", 0, "pg"⟩, ⟨"M2", 0, "pg"⟩] fiveMigrations
        = .ok plan ∧
      plan.length = ((3 : Int) - 1).toNat ∧
      (∀ k, k < plan.length → plan[k]? = fiveMigrations[((1 : Int) + 1).toNat + k]?) :=
  match @forward_plan_is_catalog_slice Nat fiveMigrations [⟨"M1", 0, "pg"⟩, ⟨"M2", 0, "pg"⟩]
      "M4" 1 3 (by simp [fiveMigrations, String.lt_iff_toList_lt]; decide) (Or.inr ⟨⟨"M2", 0, "pg"⟩, 1, by decide, by decide, by decide⟩)
      (Or.inr ⟨by decide, 3, by decide, by decide⟩) with
  | ⟨plan, h1, h2, h3, _⟩ => ⟨plan, h1, h2, h3⟩

/-! ## Backward plan -/

theorem Lookup_of_mem (catalog : List Migration) (m : Migration)
    (hnd : (catalog.map Migration.Name).Nodup) (hm : m ∈ catalog) :
    Lookup m.Name catalog = some m := by
  induction catalog with
  | nil => simp at hm
  | cons c cs ih =>
    rw [List.map_cons, List.nodup_cons] at hnd
    by_cases hc : c.Name = m.Name
    · rcases List.mem_cons.mp hm with heq | hin
      · simp [Lookup, heq]
      · exact absurd (hc ▸ List.mem_map_of_mem Migration.Name hin) hnd.1
    · rcases List.mem_cons.mp hm with heq | hin
      · exact absurd (heq ▸ rfl) hc
      · simp [Lookup, hc, ih hnd.2 hin]

theorem toMigrations_backThrough (catalog : List Migration) (name : String)
    (recs : List MigrationRecord) (xs : List Migration) (m : Migration) (ys : List Migration)
    (hrecs : recs.map MigrationRecord.Name = (xs ++ m :: ys).map Migration.Name)
    (hname : m.Name = name) (hxs : ∀ x ∈ xs, x.Name ≠ name)
    (hlook : ∀ x ∈ xs ++ [m], Lookup x.Name catalog = some x) :
    toMigrations catalog (backThrough name recs) = .ok (xs ++ [m]) := by
  induction xs generalizing recs with
  | nil =>
    cases recs with
    | nil => simp at hrecs
    | cons r rs =>
      simp only [List.nil_append, List.map_cons, List.cons.injEq] at hrecs
      have hr : r.Name = name := hrecs.1.trans hname
      have hl := hlook m (by simp)
      rw [← hrecs.1, hr] at hl
      simp [backThrough, hr, toMigrations, hl]
  | cons x xs ih =>
    cases recs with
    | nil => simp at hrecs
    | cons r rs =>
      simp only [List.cons_append, List.map_cons, List.cons.injEq] at hrecs
      have hr : r.Name ≠ name := hrecs.1 ▸ hxs x (by simp)
      have hl := hlook x (by simp)
      rw [← hrecs.1] at hl
      have hrest := ih rs hrecs.2 (fun y hy => hxs y (List.mem_cons_of_mem _ hy))
        (fun y hy => hlook y (by
          rw [List.cons_append]
          exact List.mem_cons_of_mem _ hy))
      simp [backThrough, hr, toMigrations, hl, hrest]

/-- C4 (backward plan): when the catalog is `older ++ m :: newer ++ rest`
with unique names, the state holds the names of `older ++ m :: newer` (a
non-empty catalog slice from the start) and the target is the name of `m`, the
resolver succeeds with the migrations from the most recently applied one
back through and including `m`, in descending order, and that is the plan
`MigrateBackwardToContext` runs. -/
theorem backward_plan_is_reversed_tail (catalog : List Migration)
    (state : List MigrationRecord) (name : String)
    (older : List Migration) (m : Migration) (newer rest : List Migration)
    (hcat : catalog = older ++ m :: newer ++ rest)
    (hnd : (catalog.map Migration.Name).Nodup)
    (hstate : state.map MigrationRecord.Name = (older ++ m :: newer).map Migration.Name)
    (hname : m.Name = name) :
    getMigrationsToReverse name state catalog = .ok (newer.reverse ++ [m]) ∧
      (∀ (db : Database σ) (getConfirm : List Migration → String → Option String)
          (w w1 : World σ), GetMigrationStateContext db w = (.ok state, w1) →
        MigrateBackwardToContext (packageEnv db getConfirm) name catalog false w
          = runMigrations db Migration.BackwardSQL (newer.reverse ++ [m]) w1) := by
  have hcatlen : ¬ catalog.length = 0 := by
    rw [hcat]
    simp
  have hstatelen : ¬ state.length = 0 := by
    have h := congrArg List.length hstate
    simp only [List.length_map, List.length_append, List.length_cons] at h
    omega
  have hmem : name ∈ state.map MigrationRecord.Name := by
    rw [hstate, ← hname]
    simp
  have hrev : state.reverse.map MigrationRecord.Name
      = (newer.reverse ++ m :: older.reverse).map Migration.Name := by
    rw [List.map_reverse, hstate]
    simp
  have hnewer : ∀ x ∈ newer.reverse, x.Name ≠ name := by
    intro x hx hxn
    rw [hcat] at hnd
    simp only [List.map_append, List.map_cons, List.append_assoc, List.cons_append] at hnd
    have h1 := (List.nodup_append.mp hnd).2.1
    have h2 := (List.nodup_cons.mp h1).1
    apply h2
    rw [hname, ← hxn]
    exact List.mem_append_left _ (List.mem_map_of_mem _ (List.mem_reverse.mp hx))
  have hlook : ∀ x ∈ newer.reverse ++ [m], Lookup x.Name catalog = some x := by
    intro x hx
    apply Lookup_of_mem catalog x hnd
    rw [hcat]
    rcases List.mem_append.mp hx with h | h
    · simp [List.mem_reverse.mp h]
    · simp [List.mem_singleton.mp h]
  have hplan : getMigrationsToReverse name state catalog = .ok (newer.reverse ++ [m]) := by
    unfold getMigrationsToReverse
    rw [if_neg hcatlen, if_neg hstatelen, if_pos hmem]
    exact toMigrations_backThrough catalog name state.reverse newer.reverse m older.reverse
      hrev hname hnewer hlook
  refine ⟨hplan, ?_⟩
  intro db getConfirm w w1 hread
  simp only [MigrateBackwardToContext, packageEnv, hread, hplan, askConfirm, if_neg hcatlen,
    if_neg hstatelen]
  rfl

/-- Worked instance of C4: `M1 .. M5` applied and target `M2`; the plan is
`M5, M4, M3, M2`. -/
theorem backward_plan_is_reversed_tail_witness :
    getMigrationsToReverse "M2" (fiveMigrations.map (fun m => ⟨m.Name, 0, "pg"⟩)) fiveMigrations
      = .ok [⟨"M5", ["f5a", "f5b"], ["b5"]⟩, ⟨"M4", ["f4"], ["b4"]⟩, ⟨"M3", ["f3"], ["b3"]⟩,
          ⟨"M2", ["f2"], ["b2"]⟩] :=
  (@backward_plan_is_reversed_tail Nat fiveMigrations
    (fiveMigrations.map (fun m => ⟨m.Name, 0, "pg"⟩)) "M2" [⟨"M1", ["f1"], ["b1"]⟩]
    ⟨"M2", ["f2"], ["b2"]⟩
    [⟨"M3", ["f3"], ["b3"]⟩, ⟨"M4", ["f4"], ["b4"]⟩, ⟨"M5", ["f5a", "f5b"], ["b5"]⟩] []
    (by decide) (by decide) (by decide) (by decide)).1

/-! ## Backward execution -/

/-- C5 (backward execution): with confirm off, the call sends the
BackwardSQL statements of the resolved plan in the order the resolver gave
the plan, within each migration in list order.  If all of them succeed it
returns nil having sent all of them; if `f` is the first to fail it returns
a non-nil error having sent the statements up to and including `f` and
nothing after it. -/
theorem backward_runs_plan_in_resolver_order (env : Env σ) (name : String)
    (allMigrations : List Migration) (w w1 : World σ) (state : List MigrationRecord)
    (plan : List Migration)
    (hall : allMigrations ≠ [])
    (hstate : GetMigrationStateContext env.db w = (.ok state, w1))
    (hne : state ≠ [])
    (hplan : env.getMigrationsToReverse name state allMigrations = .ok plan) :
    (∀ s1, execAll env.db w1.store ((plan.flatMap Migration.BackwardSQL).map plain) = some s1 →
      ∃ w2, MigrateBackwardToContext env name allMigrations false w = (none, w2) ∧
        w2.store = s1 ∧
        sent w2.trace = sent w.trace ++ (plan.flatMap Migration.BackwardSQL).map plain) ∧
    (∀ pre m post ss f ts s1 e, plan = pre ++ m :: post → m.BackwardSQL = ss ++ f :: ts →
      execAll env.db w1.store ((pre.flatMap Migration.BackwardSQL ++ ss).map plain) = some s1 →
      (env.db.ExecContext s1 f []).2 = some e →
      ∃ err w2, MigrateBackwardToContext env name allMigrations false w = (some err, w2) ∧
        sent w2.trace
          = sent w.trace ++ (pre.flatMap Migration.BackwardSQL ++ ss ++ [f]).map plain) := by
  have hall0 : ¬ allMigrations.length = 0 := fun h => hall (List.length_eq_zero.mp h)
  have hne0 : ¬ state.length = 0 := fun h => hne (List.length_eq_zero.mp h)
  have hread := (state_read_sent env.db w w1 _ hstate).1
  constructor
  · intro s1 hok
    obtain ⟨w2, hrun, hst, hsent, _⟩ :=
      runMigrations_ok env.db Migration.BackwardSQL plan w1 s1 hok
    refine ⟨w2, ?_, hst, ?_⟩
    · simp [MigrateBackwardToContext, hall0, hstate, hne0, hplan, askConfirm, hrun]
    · rw [hsent, hread]
  · intro pre m post ss f ts s1 e hsplit hm hok hf
    obtain ⟨w2, hrun, _, hsent, _⟩ :=
      runMigrations_fail env.db Migration.BackwardSQL pre m post ss f ts w1 s1 e hm hok hf
    refine ⟨"error running migration: " ++ e, w2, ?_, ?_⟩
    · simp [MigrateBackwardToContext, hall0, hstate, hne0, hplan, askConfirm, hsplit, hrun]
    · rw [hsent, hread]

/-- Worked instance of C5: `M1 .. M5` applied, target `M2`; on a store that
accepts everything the four backward statements go out in the order
`b5, b4, b3, b2`, and on a store that rejects `b3` the call stops after
`b5, b4, b3`. -/
theorem backward_runs_plan_in_resolver_order_witness :
    (∃ w2, MigrateBackwardToContext
        (packageEnv (holding ["M1", "M2", "M3", "M4", "M5"] "never") approve) "M2"
        fiveMigrations false start = (none, w2) ∧ w2.store = 4 ∧
      sent w2.trace = sent start.trace ++ [plain "b5", plain "b4", plain "b3", plain "b2"]) ∧
    (∃ err w2, MigrateBackwardToContext
        (packageEnv (holding ["M1", "M2", "M3", "M4", "M5"] "b3") approve) "M2"
        fiveMigrations false start = (some err, w2) ∧
      sent w2.trace = sent start.trace ++ [plain "b5", plain "b4", plain "b3"]) :=
  ⟨(backward_runs_plan_in_resolver_order
      (packageEnv (holding ["M1", "M2", "M3", "M4", "M5"] "never") approve) "M2" fiveMigrations
      start ⟨0, [.queryRow stateExistsSQL, .query stateRowsSQL]⟩
      (["M1", "M2", "M3", "M4", "M5"].map (fun n => ⟨n, 0, "pg"⟩))
      [⟨"M5", ["f5a", "f5b"], ["b5"]⟩, ⟨"M4", ["f4"], ["b4"]⟩, ⟨"M3", ["f3"], ["b3"]⟩,
        ⟨"M2", ["f2"], ["b2"]⟩]
      (by decide) rfl (by decide) (by decide)).1 4 (by decide),
   (backward_runs_plan_in_resolver_order
      (packageEnv (holding ["M1", "M2", "M3", "M4", "M5"] "b3") approve) "M2" fiveMigrations
      start ⟨0, [.queryRow stateExistsSQL, .query stateRowsSQL]⟩
      (["M1", "M2", "M3", "M4", "M5"].map (fun n => ⟨n, 0, "pg"⟩))
      [⟨"M5", ["f5a", "f5b"], ["b5"]⟩, ⟨"M4", ["f4"], ["b4"]⟩, ⟨"M3", ["f3"], ["b3"]⟩,
        ⟨"M2", ["f2"], ["b2"]⟩]
      (by decide) rfl (by decide) (by decide)).2
      [⟨"M5", ["f5a", "f5b"], ["b5"]⟩, ⟨"M4", ["f4"], ["b4"]⟩] ⟨"M3", ["f3"], ["b3"]⟩
      [⟨"M2", ["f2"], ["b2"]⟩] [] "b3" [] 2 "pq: refused" rfl rfl (by decide) (by decide)⟩

/-! ## Fake forward execution -/

theorem fakeMigrations_ok (db : Database σ) (plan : List Migration) (w : World σ) (s1 : σ)
    (h : execAll db w.store (plan.map fakeCall) = some s1) :
    ∃ w1, fakeMigrations db plan w = (none, w1) ∧ w1.store = s1 ∧
      sent w1.trace = sent w.trace ++ plan.map fakeCall ∧ asked w1.trace = asked w.trace := by
  induction plan generalizing w with
  | nil =>
    refine ⟨w, rfl, ?_, by simp, rfl⟩
    simpa [execAll] using h
  | cons m rest ih =>
    simp only [List.map_cons, execAll, fakeCall] at h
    cases hq : (db.ExecContext w.store fakeInsertSQL [m.Name]).2 with
    | some e => simp [hq] at h
    | none =>
      simp only [hq] at h
      obtain ⟨w1, hrun, hst, hsent, hask⟩ :=
        ih ((db.exec (w.emit (.print ("Faking " ++ m.Name ++ "... "))) fakeInsertSQL
          [m.Name]).2.emit (.print "Success!\n")) h
      refine ⟨w1, ?_, hst, ?_, ?_⟩
      · simp only [fakeMigrations, Database.exec, World.emit, hq] at hrun ⊢
        exact hrun
      · simp [hsent, Database.exec, World.emit, sent_append, sent, fakeCall]
      · simp [hask, Database.exec, World.emit, asked_append, asked]

theorem fakeMigrations_fail (db : Database σ) (pre : List Migration) (m : Migration)
    (post : List Migration) (w : World σ) (s1 : σ) (e : String)
    (h : execAll db w.store (pre.map fakeCall) = some s1)
    (hf : (db.ExecContext s1 fakeInsertSQL [m.Name]).2 = some e) :
    ∃ w1, fakeMigrations db (pre ++ m :: post) w = (some ("error faking migration: " ++ e), w1) ∧
      sent w1.trace = sent w.trace ++ (pre ++ [m]).map fakeCall ∧
      asked w1.trace = asked w.trace := by
  induction pre generalizing w with
  | nil =>
    simp only [List.map_nil, execAll, Option.some.injEq] at h
    subst h
    refine ⟨(db.exec (w.emit (.print ("Faking " ++ m.Name ++ "... "))) fakeInsertSQL
      [m.Name]).2.emit (.print "Failure :(\n"), ?_, ?_, ?_⟩
    · simp only [List.nil_append, fakeMigrations, Database.exec, World.emit, hf]
    · simp [World.emit, Database.exec, sent_append, sent, fakeCall]
    · simp [World.emit, Database.exec, asked_append, asked]
  | cons p rest ih =>
    simp only [List.map_cons, execAll, fakeCall] at h
    cases hq : (db.ExecContext w.store fakeInsertSQL [p.Name]).2 with
    | some e1 => simp [hq] at h
    | none =>
      simp only [hq] at h
      obtain ⟨w1, hrun, hsent, hask⟩ :=
        ih ((db.exec (w.emit (.print ("Faking " ++ p.Name ++ "... "))) fakeInsertSQL
          [p.Name]).2.emit (.print "Success!\n")) h
      refine ⟨w1, ?_, ?_, ?_⟩
      · simp only [List.cons_append, fakeMigrations, Database.exec, World.emit, hq] at hrun ⊢
        exact hrun
      · simp [hsent, Database.exec, World.emit, sent_append, sent, fakeCall]
      · simp [hask, Database.exec, World.emit, asked_append, asked]

theorem fakeMigrations_names (db : Database σ) (plan other : List Migration) (w : World σ)
    (h : other.map Migration.Name = plan.map Migration.Name) :
    fakeMigrations db other w = fakeMigrations db plan w := by
  induction plan generalizing other w with
  | nil =>
    have : other = [] := by simpa using h
    rw [this]
  | cons m rest ih =>
    cases other with
    | nil => simp at h
    | cons o os =>
      simp only [List.map_cons, List.cons.injEq] at h
      simp only [fakeMigrations, h.1]
      rw [ih os _ h.2]

/-- C6 (fake apply): with confirm off, the fake executor sends, for each
migration of the resolved plan in plan order, exactly one statement: the
fixed insert into `migration_state` with the migration's name as its only
argument.  If all inserts succeed it returns nil; at the first insert that
fails it stops with a non-nil error.  No ForwardSQL is consulted: a plan with
the same names and any other statements is run identically, and a fake
insert (one argument) is never a migration statement (sent with none). -/
theorem fake_sends_one_insert_per_migration (env : Env σ) (name : String)
    (allMigrations : List Migration) (w w1 : World σ) (state : List MigrationRecord)
    (plan : List Migration)
    (hstate : GetMigrationStateContext env.db w = (.ok state, w1))
    (hplan : env.getForwardMigrationsToRun name state allMigrations = .ok plan) :
    (∀ s1, execAll env.db w1.store (plan.map fakeCall) = some s1 →
      ∃ w2, FakeMigrateForwardToContext env name allMigrations false w = (none, w2) ∧
        sent w2.trace = sent w.trace ++ plan.map (fun m => (fakeInsertSQL, [m.Name]))) ∧
    (∀ pre m post s1 e, plan = pre ++ m :: post →
      execAll env.db w1.store (pre.map fakeCall) = some s1 →
      (env.db.ExecContext s1 fakeInsertSQL [m.Name]).2 = some e →
      ∃ err w2, FakeMigrateForwardToContext env name allMigrations false w = (some err, w2) ∧
        sent w2.trace
          = sent w.trace ++ (pre ++ [m]).map (fun m => (fakeInsertSQL, [m.Name]))) ∧
    (∀ other : List Migration, other.map Migration.Name = plan.map Migration.Name →
      fakeMigrations env.db other w1 = fakeMigrations env.db plan w1) ∧
    (∀ (m : Migration) (sql : String), fakeCall m ≠ plain sql) := by
  have hread := (state_read_sent env.db w w1 _ hstate).1
  refine ⟨?_, ?_, ?_, fun m sql h => by simp [fakeCall, plain] at h⟩
  · intro s1 hok
    by_cases hlen : plan.length = 0
    · have hnil : plan = [] := List.length_eq_zero.mp hlen
      subst hnil
      refine ⟨w1.emit (.print "No migrations to fake\n"), ?_, ?_⟩
      · simp [FakeMigrateForwardToContext, hstate, hplan]
      · simp [World.emit, sent_append, sent, hread]
    · obtain ⟨w2, hrun, _, hsent, _⟩ := fakeMigrations_ok env.db plan w1 s1 hok
      refine ⟨w2, ?_, ?_⟩
      · simp [FakeMigrateForwardToContext, hstate, hplan, hlen, askConfirm, hrun]
      · rw [hsent, hread]
        rfl
  · intro pre m post s1 e hsplit hok hf
    obtain ⟨w2, hrun, hsent, _⟩ := fakeMigrations_fail env.db pre m post w1 s1 e hok hf
    refine ⟨"error faking migration: " ++ e, w2, ?_, ?_⟩
    · simp [FakeMigrateForwardToContext, hstate, hplan, hsplit, askConfirm, hrun]
    · rw [hsent, hread]
      rfl
  · intro other hnames
    exact fakeMigrations_names env.db plan other w1 hnames

/-- Worked instance of C6: faking `M1 .. M5` on a fresh store sends five
inserts; on a store that refuses the name `M3` it stops after three. -/
theorem fake_sends_one_insert_per_migration_witness :
    (∃ w2, FakeMigrateForwardToContext (packageEnv (refusingName "none") approve) ""
        fiveMigrations false start = (none, w2) ∧
      sent w2.trace = sent start.trace ++
        [(fakeInsertSQL, ["M1"]), (fakeInsertSQL, ["M2"]), (fakeInsertSQL, ["M3"]),
          (fakeInsertSQL, ["M4"]), (fakeInsertSQL, ["M5"])]) ∧
    (∃ err w2, FakeMigrateForwardToContext (packageEnv (refusingName "M3") approve) ""
        fiveMigrations false start = (some err, w2) ∧
      sent w2.trace = sent start.trace ++
        [(fakeInsertSQL, ["M1"]), (fakeInsertSQL, ["M2"]), (fakeInsertSQL, ["M3"])]) :=
  ⟨(fake_sends_one_insert_per_migration (packageEnv (refusingName "none") approve) ""
      fiveMigrations start ⟨0, [.queryRow stateExistsSQL]⟩ [] fiveMigrations rfl
      (by decide)).1 5 (by decide),
   (fake_sends_one_insert_per_migration (packageEnv (refusingName "M3") approve) ""
      fiveMigrations start ⟨0, [.queryRow stateExistsSQL]⟩ [] fiveMigrations rfl
      (by decide)).2.1 [⟨"M1", ["f1"], ["b1"]⟩, ⟨"M2", ["f2"], ["b2"]⟩] ⟨"M3", ["f3"], ["b3"]⟩
      [⟨"M4", ["f4"], ["b4"]⟩, ⟨"M5", ["f5a", "f5b"], ["b5"]⟩] 2 "pq: duplicate key" rfl
      (by decide) (by decide)⟩

/-! ## Confirmation gate -/

theorem state_read_shape (db : Database σ) (w : World σ) :
    ∃ pre, (GetMigrationStateContext db w).2.trace = w.trace ++ pre ∧ sent pre = [] ∧
      asked pre = [] := by
  unfold GetMigrationStateContext
  cases h1 : (db.QueryRowContext w.store stateExistsSQL).2 with
  | error err => exact ⟨[.queryRow stateExistsSQL], by simp, rfl, rfl⟩
  | ok b =>
    cases b with
    | false => exact ⟨[.queryRow stateExistsSQL], by simp, rfl, rfl⟩
    | true =>
      refine ⟨[.queryRow stateExistsSQL, .query stateRowsSQL], ?_, rfl, rfl⟩
      cases h2 : (db.QueryContext (db.QueryRowContext w.store stateExistsSQL).1 stateRowsSQL).2
        <;> simp [h2]

theorem runStatements_shape (db : Database σ) (stmts : List String) (w : World σ) :
    ∃ post, (runStatements db stmts w).2.trace = w.trace ++ post ∧ asked post = [] := by
  induction stmts generalizing w with
  | nil => exact ⟨[], by simp [runStatements], rfl⟩
  | cons q qs ih =>
    cases hq : (db.ExecContext w.store q []).2 with
    | some e =>
      exact ⟨[.exec q [], .print "Failure :(\n"],
        by simp [runStatements, Database.exec, World.emit, hq], rfl⟩
    | none =>
      obtain ⟨post, hpost, hask⟩ := ih (db.exec w q []).2
      refine ⟨.exec q [] :: post, ?_, by simpa [asked] using hask⟩
      simp only [runStatements, Database.exec, hq] at hpost ⊢
      rw [hpost]
      simp

theorem runMigrationSQLContext_shape (db : Database σ) (name : String) (stmts : List String)
    (w : World σ) :
    ∃ post, (runMigrationSQLContext db name stmts w).2.trace = w.trace ++ post ∧
      asked post = [] := by
  obtain ⟨post, hpost, hask⟩ :=
    runStatements_shape db stmts (w.emit (.print ("Running " ++ name ++ "... ")))
  rcases hrun : runStatements db stmts (w.emit (.print ("Running " ++ name ++ "... ")))
    with ⟨r, w1⟩
  rw [hrun] at hpost
  simp only [World.emit] at hpost
  cases r with
  | some e =>
    refine ⟨.print ("Running " ++ name ++ "... ") :: post, ?_, by simpa [asked] using hask⟩
    simp only [runMigrationSQLContext, hrun]
    simp [hpost]
  | none =>
    refine ⟨.print ("Running " ++ name ++ "... ") :: (post ++ [.print "Success!\n"]), ?_, ?_⟩
    · simp only [runMigrationSQLContext, hrun]
      simp [hpost, World.emit]
    · simp [asked, asked_append, hask]

theorem runMigrations_shape (db : Database σ) (sel : Migration → List String)
    (plan : List Migration) (w : World σ) :
    ∃ post, (runMigrations db sel plan w).2.trace = w.trace ++ post ∧ asked post = [] := by
  induction plan generalizing w with
  | nil => exact ⟨[], by simp [runMigrations], rfl⟩
  | cons m rest ih =>
    obtain ⟨p1, hp1, ha1⟩ := runMigrationSQLContext_shape db m.Name (sel m) w
    rcases hrun : runMigrationSQLContext db m.Name (sel m) w with ⟨r, w1⟩
    rw [hrun] at hp1
    cases r with
    | some e => exact ⟨p1, by simpa [runMigrations, hrun] using hp1, ha1⟩
    | none =>
      obtain ⟨p2, hp2, ha2⟩ := ih w1
      refine ⟨p1 ++ p2, ?_, by simp [asked_append, ha1, ha2]⟩
      simp only [runMigrations, hrun]
      rw [hp2, hp1, List.append_assoc]

theorem fakeMigrations_shape (db : Database σ) (plan : List Migration) (w : World σ) :
    ∃ post, (fakeMigrations db plan w).2.trace = w.trace ++ post ∧ asked post = [] := by
  induction plan generalizing w with
  | nil => exact ⟨[], by simp [fakeMigrations], rfl⟩
  | cons m rest ih =>
    cases hq : (db.ExecContext w.store fakeInsertSQL [m.Name]).2 with
    | some e =>
      exact ⟨[.print ("Faking " ++ m.Name ++ "... "), .exec fakeInsertSQL [m.Name],
          .print "Failure :(\n"],
        by simp [fakeMigrations, Database.exec, World.emit, hq], rfl⟩
    | none =>
      obtain ⟨post, hpost, hask⟩ :=
        ih ((db.exec (w.emit (.print ("Faking " ++ m.Name ++ "... "))) fakeInsertSQL
          [m.Name]).2.emit (.print "Success!\n"))
      refine ⟨[.print ("Faking " ++ m.Name ++ "... "), .exec fakeInsertSQL [m.Name],
          .print "Success!\n"] ++ post, ?_, by simpa [asked, asked_append] using hask⟩
      simp only [fakeMigrations, Database.exec, World.emit, hq] at hpost ⊢
      rw [hpost]
      simp

theorem gate_shape (env : Env σ) (confirm : Bool) (toRun : List Migration) (label : String)
    (run : World σ → Option String × World σ) (w1 : World σ)
    (hrun : ∀ w, ∃ post, (run w).2.trace = w.trace ++ post ∧ asked post = []) :
    PromptsOnceAndFirst w1.trace
      (match askConfirm env confirm toRun label w1 with
        | (some err, w2) => (some err, w2)
        | (none, w2) => run w2).2.trace := by
  cases confirm with
  | false =>
    obtain ⟨post, hpost, hask⟩ := hrun w1
    exact ⟨[], post, by simpa [askConfirm] using hpost, rfl, by simp [asked], hask⟩
  | true =>
    cases hc : env.getConfirm toRun label with
    | some e =>
      exact ⟨[.confirm toRun label], [], by simp [askConfirm, hc, World.emit], rfl,
        by simp [asked], rfl⟩
    | none =>
      obtain ⟨post, hpost, hask⟩ := hrun (w1.emit (.confirm toRun label))
      exact ⟨[.confirm toRun label], post, by simpa [askConfirm, hc, World.emit] using hpost,
        rfl, by simp [asked], hask⟩

theorem shape_after_read (before mid after pre0 : List Event)
    (hmid : mid = before ++ pre0) (hs0 : sent pre0 = []) (ha0 : asked pre0 = [])
    (h : PromptsOnceAndFirst mid after) : PromptsOnceAndFirst before after := by
  obtain ⟨pre, post, hafter, hs, ha, hp⟩ := h
  refine ⟨pre0 ++ pre, post, ?_, ?_, ?_, hp⟩
  · rw [hafter, hmid]
    simp
  · simp [sent_append, hs0, hs]
  · simpa [asked_append, ha0] using ha

theorem shape_quiet (before after pre0 : List Event)
    (hafter : after = before ++ pre0) (hs0 : sent pre0 = []) (ha0 : asked pre0 = []) :
    PromptsOnceAndFirst before after :=
  ⟨pre0, [], by simpa using hafter, hs0, by simp [ha0], rfl⟩

theorem forward_shape (env : Env σ) (name : String) (allMigrations : List Migration)
    (confirm : Bool) (w : World σ) :
    PromptsOnceAndFirst w.trace
      (MigrateForwardToContext env name allMigrations confirm w).2.trace := by
  obtain ⟨pre0, h0, hs0, ha0⟩ := state_read_shape env.db w
  rcases hread : GetMigrationStateContext env.db w with ⟨r, w1⟩
  rw [hread] at h0
  simp only at h0
  cases r with
  | error err =>
    exact shape_quiet _ _ pre0 (by simpa [MigrateForwardToContext, hread] using h0) hs0 ha0
  | ok state =>
    cases hres : env.getForwardMigrationsToRun name state allMigrations with
    | error err =>
      exact shape_quiet _ _ pre0 (by simpa [MigrateForwardToContext, hread, hres] using h0)
        hs0 ha0
    | ok toRun =>
      by_cases hlen : toRun.length = 0
      · refine shape_quiet _ _ (pre0 ++ [.print "No migrations to run\n"]) ?_
          (by simp [sent_append, hs0, sent]) (by simp [asked_append, ha0, asked])
        simp [MigrateForwardToContext, hread, hres, hlen, World.emit, h0]
      · have hg := gate_shape env confirm toRun "Forward"
          (runMigrations env.db Migration.ForwardSQL toRun) w1
          (runMigrations_shape env.db Migration.ForwardSQL toRun)
        refine shape_after_read _ _ _ pre0 h0 hs0 ha0 ?_
        simpa only [MigrateForwardToContext, hread, hres, hlen, if_false] using hg

theorem fake_shape (env : Env σ) (name : String) (allMigrations : List Migration)
    (confirm : Bool) (w : World σ) :
    PromptsOnceAndFirst w.trace
      (FakeMigrateForwardToContext env name allMigrations confirm w).2.trace := by
  obtain ⟨pre0, h0, hs0, ha0⟩ := state_read_shape env.db w
  rcases hread : GetMigrationStateContext env.db w with ⟨r, w1⟩
  rw [hread] at h0
  simp only at h0
  cases r with
  | error err =>
    exact shape_quiet _ _ pre0 (by simpa [FakeMigrateForwardToContext, hread] using h0) hs0 ha0
  | ok state =>
    cases hres : env.getForwardMigrationsToRun name state allMigrations with
    | error err =>
      exact shape_quiet _ _ pre0
        (by simpa [FakeMigrateForwardToContext, hread, hres] using h0) hs0 ha0
    | ok toRun =>
      by_cases hlen : toRun.length = 0
      · refine shape_quiet _ _ (pre0 ++ [.print "No migrations to fake\n"]) ?_
          (by simp [sent_append, hs0, sent]) (by simp [asked_append, ha0, asked])
        simp [FakeMigrateForwardToContext, hread, hres, hlen, World.emit, h0]
      · have hg := gate_shape env confirm toRun "Forward" (fakeMigrations env.db toRun) w1
          (fakeMigrations_shape env.db toRun)
        refine shape_after_read _ _ _ pre0 h0 hs0 ha0 ?_
        simpa only [FakeMigrateForwardToContext, hread, hres, hlen, if_false] using hg

theorem backward_shape (env : Env σ) (name : String) (allMigrations : List Migration)
    (confirm : Bool) (w : World σ) :
    PromptsOnceAndFirst w.trace
      (MigrateBackwardToContext env name allMigrations confirm w).2.trace := by
  by_cases hall : allMigrations.length = 0
  · exact shape_quiet _ _ [] (by simp [MigrateBackwardToContext, hall]) rfl rfl
  obtain ⟨pre0, h0, hs0, ha0⟩ := state_read_shape env.db w
  rcases hread : GetMigrationStateContext env.db w with ⟨r, w1⟩
  rw [hread] at h0
  simp only at h0
  cases r with
  | error err =>
    exact shape_quiet _ _ pre0 (by simpa [MigrateBackwardToContext, hall, hread] using h0)
      hs0 ha0
  | ok state =>
    by_cases hst : state.length = 0
    · exact shape_quiet _ _ pre0
        (by simpa [MigrateBackwardToContext, hall, hread, hst] using h0) hs0 ha0
    cases hres : env.getMigrationsToReverse name state allMigrations with
    | error err =>
      exact shape_quiet _ _ pre0
        (by simpa [MigrateBackwardToContext, hall, hread, hst, hres] using h0) hs0 ha0
    | ok toRun =>
      have hg := gate_shape env confirm toRun "Backward"
        (runMigrations env.db Migration.BackwardSQL toRun) w1
        (runMigrations_shape env.db Migration.BackwardSQL toRun)
      refine shape_after_read _ _ _ pre0 h0 hs0 ha0 ?_
      simpa only [MigrateBackwardToContext, hall, hread, hst, hres, if_false] using hg

/-- C7 (confirmation gate): with confirm set, when the operator declines the
plan (`getConfirm` returns the error `e`), each of the three calls returns
`e` itself and has sent no statement; and for every call, whatever its
outcome, at most one prompt is issued and no statement is sent ahead of it. -/
theorem confirmation_gate (env : Env σ) (name : String) (allMigrations : List Migration)
    (w : World σ) :
    (∀ w1 state plan e, GetMigrationStateContext env.db w = (.ok state, w1) →
      env.getForwardMigrationsToRun name state allMigrations = .ok plan → plan ≠ [] →
      env.getConfirm plan "Forward" = some e →
      (∃ w2, MigrateForwardToContext env name allMigrations true w = (some e, w2) ∧
        sent w2.trace = sent w.trace) ∧
      (∃ w2, FakeMigrateForwardToContext env name allMigrations true w = (some e, w2) ∧
        sent w2.trace = sent w.trace)) ∧
    (∀ w1 state plan e, allMigrations ≠ [] →
      GetMigrationStateContext env.db w = (.ok state, w1) → state ≠ [] →
      env.getMigrationsToReverse name state allMigrations = .ok plan →
      env.getConfirm plan "Backward" = some e →
      ∃ w2, MigrateBackwardToContext env name allMigrations true w = (some e, w2) ∧
        sent w2.trace = sent w.trace) ∧
    (∀ confirm,
      PromptsOnceAndFirst w.trace
        (MigrateForwardToContext env name allMigrations confirm w).2.trace ∧
      PromptsOnceAndFirst w.trace
        (FakeMigrateForwardToContext env name allMigrations confirm w).2.trace ∧
      PromptsOnceAndFirst w.trace
        (MigrateBackwardToContext env name allMigrations confirm w).2.trace) := by
  refine ⟨?_, ?_, ?_⟩
  · intro w1 state plan e hstate hplan hne hdecline
    have hlen : ¬ plan.length = 0 := fun h => hne (List.length_eq_zero.mp h)
    have hread := (state_read_sent env.db w w1 _ hstate).1
    constructor
    · refine ⟨w1.emit (.confirm plan "Forward"), ?_, ?_⟩
      · simp [MigrateForwardToContext, hstate, hplan, hlen, askConfirm, hdecline]
      · simp [World.emit, sent_append, sent, hread]
    · refine ⟨w1.emit (.confirm plan "Forward"), ?_, ?_⟩
      · simp [FakeMigrateForwardToContext, hstate, hplan, hlen, askConfirm, hdecline]
      · simp [World.emit, sent_append, sent, hread]
  · intro w1 state plan e hall hstate hne hplan hdecline
    have hall0 : ¬ allMigrations.length = 0 := fun h => hall (List.length_eq_zero.mp h)
    have hne0 : ¬ state.length = 0 := fun h => hne (List.length_eq_zero.mp h)
    have hread := (state_read_sent env.db w w1 _ hstate).1
    refine ⟨w1.emit (.confirm plan "Backward"), ?_, ?_⟩
    · simp [MigrateBackwardToContext, hall0, hstate, hne0, hplan, askConfirm, hdecline]
    · simp [World.emit, sent_append, sent, hread]
  · intro confirm
    exact ⟨forward_shape env name allMigrations confirm w,
      fake_shape env name allMigrations confirm w,
      backward_shape env name allMigrations confirm w⟩

/-- Worked instance of C7: with `M1`, `M2` applied and an operator who
declines, going forward to the latest, faking forward, and going back to
`M2` each return the operator's error and send nothing. -/
theorem confirmation_gate_witness :
    ((∃ w2, MigrateForwardToContext (packageEnv (holding ["M1", "M2"] "never") decline) ""
        fiveMigrations true start = (some "declined", w2) ∧ sent w2.trace = sent start.trace) ∧
      (∃ w2, FakeMigrateForwardToContext (packageEnv (holding ["M1", "M2"] "never") decline) ""
        fiveMigrations true start = (some "declined", w2) ∧ sent w2.trace = sent start.trace)) ∧
    (∃ w2, MigrateBackwardToContext (packageEnv (holding ["M1", "M2"] "never") decline) "M2"
        fiveMigrations true start = (some "declined", w2) ∧ sent w2.trace = sent start.trace) :=
  ⟨(confirmation_gate (packageEnv (holding ["M1", "M2"] "never") decline) "" fiveMigrations
      start).1 ⟨0, [.queryRow stateExistsSQL, .query stateRowsSQL]⟩
      [⟨"M1", 0, "pg"⟩, ⟨"M2", 0, "pg"⟩]
      [⟨"M3", ["f3"], ["b3"]⟩, ⟨"M4", ["f4"], ["b4"]⟩, ⟨"M5", ["f5a", "f5b"], ["b5"]⟩]
      "declined" rfl (by decide) (by decide) rfl,
   (confirmation_gate (packageEnv (holding ["M1", "M2"] "never") decline) "M2" fiveMigrations
      start).2.1 ⟨0, [.queryRow stateExistsSQL, .query stateRowsSQL]⟩
      [⟨"M1", 0, "pg"⟩, ⟨"M2", 0, "pg"⟩] [⟨"M2", ["f2"], ["b2"]⟩]
      "declined" (by decide) rfl (by decide) (by decide) rfl⟩

/-! ## Empty plans -/

/-- C8 (empty forward plan): when the resolved forward plan is empty, both
`MigrateForwardToContext` and `FakeMigrateForwardToContext` return nil,
send no statement and issue no prompt, whether or not confirm is set. -/
theorem empty_forward_plan_is_noop (env : Env σ) (name : String)
    (allMigrations : List Migration) (confirm : Bool) (w w1 : World σ)
    (state : List MigrationRecord)
    (hstate : GetMigrationStateContext env.db w = (.ok state, w1))
    (hplan : env.getForwardMigrationsToRun name state allMigrations = .ok []) :
    (MigrateForwardToContext env name allMigrations confirm w
        = (none, w1.emit (.print "No migrations to run\n")) ∧
      sent (MigrateForwardToContext env name allMigrations confirm w).2.trace = sent w.trace ∧
      asked (MigrateForwardToContext env name allMigrations confirm w).2.trace
        = asked w.trace) ∧
    (FakeMigrateForwardToContext env name allMigrations confirm w
        = (none, w1.emit (.print "No migrations to fake\n")) ∧
      sent (FakeMigrateForwardToContext env name allMigrations confirm w).2.trace
        = sent w.trace ∧
      asked (FakeMigrateForwardToContext env name allMigrations confirm w).2.trace
        = asked w.trace) := by
  have hread := state_read_sent env.db w w1 _ hstate
  have hf : MigrateForwardToContext env name allMigrations confirm w
      = (none, w1.emit (.print "No migrations to run\n")) := by
    simp [MigrateForwardToContext, hstate, hplan]
  have hk : FakeMigrateForwardToContext env name allMigrations confirm w
      = (none, w1.emit (.print "No migrations to fake\n")) := by
    simp [FakeMigrateForwardToContext, hstate, hplan]
  refine ⟨⟨hf, ?_, ?_⟩, hk, ?_, ?_⟩
  · simp [hf, World.emit, sent_append, sent, hread.1]
  · simp [hf, World.emit, asked_append, asked, hread.2]
  · simp [hk, World.emit, sent_append, sent, hread.1]
  · simp [hk, World.emit, asked_append, asked, hread.2]

/-- Worked instance of C8: all of `M1 .. M5` applied, confirm set, an
operator who would decline. -/
theorem empty_forward_plan_is_noop_witness :
    (MigrateForwardToContext (packageEnv (holding ["M1", "M2", "M3", "M4", "M5"] "never") decline)
        "" fiveMigrations true start).1 = none ∧
    (FakeMigrateForwardToContext
        (packageEnv (holding ["M1", "M2", "M3", "M4", "M5"] "never") decline)
        "" fiveMigrations true start).1 = none :=
  match empty_forward_plan_is_noop
      (packageEnv (holding ["M1", "M2", "M3", "M4", "M5"] "never") decline) "" fiveMigrations
      true start ⟨0, [.queryRow stateExistsSQL, .query stateRowsSQL]⟩
      (["M1", "M2", "M3", "M4", "M5"].map (fun n => ⟨n, 0, "pg"⟩)) rfl (by decide) with
  | ⟨⟨hf, _, _⟩, hk, _, _⟩ => ⟨by rw [hf], by rw [hk]⟩

theorem backThrough_ne_nil (name : String) (r : MigrationRecord) (rs : List MigrationRecord) :
    backThrough name (r :: rs) ≠ [] := by
  by_cases h : r.Name = name <;> simp [backThrough, h]

theorem toMigrations_length (catalog : List Migration) (recs : List MigrationRecord)
    (plan : List Migration) (h : toMigrations catalog recs = .ok plan) :
    plan.length = recs.length := by
  induction recs generalizing plan with
  | nil =>
    simp only [toMigrations, Except.ok.injEq] at h
    subst h
    rfl
  | cons r rs ih =>
    simp only [toMigrations] at h
    cases hl : Lookup r.Name catalog with
    | none => simp [hl] at h
    | some m =>
      cases ht : toMigrations catalog rs with
      | error err => simp [hl, ht] at h
      | ok ms =>
        simp only [hl, ht, Except.ok.injEq] at h
        rw [← h, List.length_cons, List.length_cons, ih ms ht]

/-- Under the resolver of section 4.3 a reversal plan, when there is one,
always holds at least the target. -/
theorem getMigrationsToReverse_ne_nil (name : String) (state : List MigrationRecord)
    (allMigrations plan : List Migration)
    (h : getMigrationsToReverse name state allMigrations = .ok plan) : plan ≠ [] := by
  unfold getMigrationsToReverse at h
  split_ifs at h with h1 h2 h3
  have hlen := toMigrations_length allMigrations _ plan h
  cases hrev : state.reverse with
  | nil =>
    have : state = [] := by simpa using hrev
    exact absurd (by simp [this]) h2
  | cons r rs =>
    rw [hrev] at hlen
    intro hnil
    have hb := backThrough_ne_nil name r rs
    rw [hnil] at hlen
    exact hb (List.length_eq_zero.mp hlen.symm)

/-! ## Error value of a failed statement -/

theorem askConfirm_pass (env : Env σ) (confirm : Bool) (toRun : List Migration)
    (label : String) (w1 : World σ)
    (h : confirm = false ∨ env.getConfirm toRun label = none) :
    ∃ w2, askConfirm env confirm toRun label w1 = (none, w2) ∧ w2.store = w1.store := by
  cases confirm with
  | false => exact ⟨w1, rfl, rfl⟩
  | true =>
    rcases h with h | h
    · exact absurd h (by decide)
    · exact ⟨w1.emit (.confirm toRun label), by simp [askConfirm, h], rfl⟩

/-- C10 (failure error value): when a forward statement, respectively a
backward statement, is the first to fail and the store's error is `e`, the
error returned by `MigrateForwardTo`, respectively `MigrateBackwardTo`, is
"error running migration: " followed by `e`; this holds with confirm off and
with confirm set and approved. -/
theorem failed_statement_error_text (env : Env σ) (name : String)
    (allMigrations : List Migration) (confirm : Bool) (w w1 : World σ)
    (state : List MigrationRecord)
    (pre : List Migration) (m : Migration) (post : List Migration)
    (ss : List String) (f : String) (ts : List String) (s1 : σ) (e : String)
    (hstate : GetMigrationStateContext env.db w = (.ok state, w1))
    (hf : (env.db.ExecContext s1 f []).2 = some e) :
    (env.getForwardMigrationsToRun name state allMigrations = .ok (pre ++ m :: post) →
      (confirm = false ∨ env.getConfirm (pre ++ m :: post) "Forward" = none) →
      m.ForwardSQL = ss ++ f :: ts →
      execAll env.db w1.store ((pre.flatMap Migration.ForwardSQL ++ ss).map plain) = some s1 →
      (MigrateForwardTo env name allMigrations confirm w).1
        = some ("error running migration: " ++ e)) ∧
    (allMigrations ≠ [] → state ≠ [] →
      env.getMigrationsToReverse name state allMigrations = .ok (pre ++ m :: post) →
      (confirm = false ∨ env.getConfirm (pre ++ m :: post) "Backward" = none) →
      m.BackwardSQL = ss ++ f :: ts →
      execAll env.db w1.store ((pre.flatMap Migration.BackwardSQL ++ ss).map plain) = some s1 →
      (MigrateBackwardTo env name allMigrations confirm w).1
        = some ("error running migration: " ++ e)) := by
  constructor
  · intro hplan hconf hm hok
    obtain ⟨w2, hask, hst⟩ := askConfirm_pass env confirm (pre ++ m :: post) "Forward" w1 hconf
    obtain ⟨w3, hrun, _⟩ :=
      runMigrations_fail env.db Migration.ForwardSQL pre m post ss f ts w2 s1 e hm
        (by rw [hst]; exact hok) hf
    simp [MigrateForwardTo, MigrateForwardToContext, hstate, hplan, hask, hrun]
  · intro hall hne hplan hconf hm hok
    have hall0 : ¬ allMigrations.length = 0 := fun h => hall (List.length_eq_zero.mp h)
    have hne0 : ¬ state.length = 0 := fun h => hne (List.length_eq_zero.mp h)
    obtain ⟨w2, hask, hst⟩ := askConfirm_pass env confirm (pre ++ m :: post) "Backward" w1 hconf
    obtain ⟨w3, hrun, _⟩ :=
      runMigrations_fail env.db Migration.BackwardSQL pre m post ss f ts w2 s1 e hm
        (by rw [hst]; exact hok) hf
    simp [MigrateBackwardTo, MigrateBackwardToContext, hall0, hstate, hne0, hplan, hask, hrun]

/-- Worked instance of C10: going forward on a fresh store that rejects `f2`
with "pq: division by zero", and going back to `M2` on a store holding
`M1 .. M3` that rejects `b2` with "pq: refused". -/
theorem failed_statement_error_text_witness :
    (MigrateForwardTo (packageEnv (rejecting "f2") approve) "" fiveMigrations false start).1
        = some ("error running migration: " ++ "pq: division by zero") ∧
    (MigrateBackwardTo (packageEnv (holding ["M1", "M2", "M3"] "b2") approve) "M2"
        fiveMigrations true start).1 = some ("error running migration: " ++ "pq: refused") :=
  ⟨(failed_statement_error_text (packageEnv (rejecting "f2") approve) "" fiveMigrations false
      start ⟨0, [.queryRow stateExistsSQL]⟩ [] [⟨"M1", ["f1"], ["b1"]⟩] ⟨"M2", ["f2"], ["b2"]⟩
      [⟨"M3", ["f3"], ["b3"]⟩, ⟨"M4", ["f4"], ["b4"]⟩, ⟨"M5", ["f5a", "f5b"], ["b5"]⟩]
      [] "f2" [] 1 "pq: division by zero" rfl (by decide)).1
      (by decide) (Or.inl rfl) rfl (by decide),
   (failed_statement_error_text (packageEnv (holding ["M1", "M2", "M3"] "b2") approve) "M2"
      fiveMigrations true start ⟨0, [.queryRow stateExistsSQL, .query stateRowsSQL]⟩
      [⟨"M1", 0, "pg"⟩, ⟨"M2", 0, "pg"⟩, ⟨"M3", 0, "pg"⟩] [⟨"M3", ["f3"], ["b3"]⟩]
      ⟨"M2", ["f2"], ["b2"]⟩ [] [] "b2" [] 1 "pq: refused" rfl (by decide)).2
      (by decide) (by decide) (by decide) (Or.inr rfl) rfl (by decide)⟩

/-! ## Reversal preconditions and bootstrap -/

/-- C12 (empty catalog rejects reversal): with an empty migration list the
call returns "no migrations provided" and leaves the world as it was: no
query, no prompt, no statement, for every target, store and confirm flag. -/
theorem backward_rejects_empty_catalog (env : Env σ) (name : String) (confirm : Bool)
    (w : World σ) :
    MigrateBackwardToContext env name [] confirm w = (some "no migrations provided", w) := by
  simp [MigrateBackwardToContext]

/-- C13 (empty state rejects reversal): with a non-empty migration list,
when the state read succeeds with no applied migration, the call returns
"state is empty. cannot migrate back", issues no prompt and sends no
statement. -/
theorem backward_rejects_empty_state (env : Env σ) (name : String)
    (allMigrations : List Migration) (confirm : Bool) (w w1 : World σ)
    (hall : allMigrations ≠ [])
    (hstate : GetMigrationStateContext env.db w = (.ok [], w1)) :
    MigrateBackwardToContext env name allMigrations confirm w
      = (some "state is empty. cannot migrate back", w1) ∧
    sent w1.trace = sent w.trace ∧ asked w1.trace = asked w.trace := by
  have hall0 : ¬ allMigrations.length = 0 := fun h => hall (List.length_eq_zero.mp h)
  refine ⟨?_, state_read_sent env.db w w1 _ hstate⟩
  simp [MigrateBackwardToContext, hall0, hstate]

/-- Worked instance of C13: a fresh store, target `M2`, confirm set. -/
theorem backward_rejects_empty_state_witness :
    MigrateBackwardToContext (packageEnv (rejecting "never") decline) "M2" fiveMigrations true
        start = (some "state is empty. cannot migrate back", ⟨0, [.queryRow stateExistsSQL]⟩) ∧
    sent [Event.queryRow stateExistsSQL] = sent start.trace ∧
    asked [Event.queryRow stateExistsSQL] = asked start.trace :=
  backward_rejects_empty_state (packageEnv (rejecting "never") decline) "M2" fiveMigrations true
    start ⟨0, [.queryRow stateExistsSQL]⟩ (by decide) rfl

/-- C14 (bootstrap): when the existence probe answers that the table does
not exist, `GetMigrationStateContext` and `GetMigrationLogContext` return an
empty non-nil list with a nil error, and the probe is the only query they
issue: the row query is not sent. -/
theorem missing_table_reads_as_empty (db : Database σ) (w : World σ) :
    ((db.QueryRowContext w.store stateExistsSQL).2 = .ok false →
      GetMigrationStateContext db w
        = (.ok [], ⟨(db.QueryRowContext w.store stateExistsSQL).1,
            w.trace ++ [.queryRow stateExistsSQL]⟩) ∧
      goPair (GetMigrationStateContext db w).1 = (some [], none)) ∧
    ((db.QueryRowContext w.store logExistsSQL).2 = .ok false →
      GetMigrationLogContext db w
        = (.ok [], ⟨(db.QueryRowContext w.store logExistsSQL).1,
            w.trace ++ [.queryRow logExistsSQL]⟩) ∧
      goPair (GetMigrationLogContext db w).1 = (some [], none)) := by
  constructor
  · intro h
    simp [GetMigrationStateContext, h, goPair]
  · intro h
    simp [GetMigrationLogContext, h, goPair]

/-- Worked instance of C14: a fresh store, on which both probes answer
false. -/
theorem missing_table_reads_as_empty_witness :
    GetMigrationStateContext (rejecting "never") start
      = (.ok [], ⟨0, [.queryRow stateExistsSQL]⟩) ∧
    GetMigrationLogContext (rejecting "never") start
      = (.ok [], ⟨0, [.queryRow logExistsSQL]⟩) :=
  ⟨((missing_table_reads_as_empty (rejecting "never") start).1 rfl).1,
   ((missing_table_reads_as_empty (rejecting "never") start).2 rfl).1⟩

/-! ## How a failure is reported -/

theorem runStatements_fail_trace (db : Database σ) (ss : List String) (f : String)
    (ts : List String) (w : World σ) (s1 : σ) (e : String)
    (h : execAll db w.store (ss.map plain) = some s1)
    (hf : (db.ExecContext s1 f []).2 = some e) :
    (runStatements db (ss ++ f :: ts) w).2.trace
      = w.trace ++ (ss ++ [f]).map (fun q => Event.exec q []) ++ [.print "Failure :(\n"] := by
  induction ss generalizing w with
  | nil =>
    simp only [List.map_nil, execAll, Option.some.injEq] at h
    subst h
    simp [runStatements, Database.exec, World.emit, hf]
  | cons q qs ih =>
    simp only [List.map_cons, execAll, plain] at h
    cases hq : (db.ExecContext w.store q []).2 with
    | some e1 => simp [hq] at h
    | none =>
      simp only [hq] at h
      have hrest := ih (db.exec w q []).2 h
      simp only [List.cons_append, runStatements, Database.exec, hq] at hrest ⊢
      refine hrest.trans ?_
      simp

theorem runMigrationSQLContext_fail_trace (db : Database σ) (name : String)
    (ss : List String) (f : String) (ts : List String) (w : World σ) (s1 : σ) (e : String)
    (h : execAll db w.store (ss.map plain) = some s1)
    (hf : (db.ExecContext s1 f []).2 = some e) :
    (runMigrationSQLContext db name (ss ++ f :: ts) w).2.trace
      = w.trace ++ [.print ("Running " ++ name ++ "... ")]
          ++ (ss ++ [f]).map (fun q => Event.exec q []) ++ [.print "Failure :(\n"] := by
  obtain ⟨w1, hrun, _, _, _⟩ :=
    runStatements_fail db ss f ts (w.emit (.print ("Running " ++ name ++ "... "))) s1 e h hf
  have htrace :=
    runStatements_fail_trace db ss f ts (w.emit (.print ("Running " ++ name ++ "... "))) s1 e h hf
  rw [hrun] at htrace
  simp only [runMigrationSQLContext, hrun]
  simpa [World.emit] using htrace

theorem runMigrations_fail_trace (db : Database σ) (sel : Migration → List String)
    (pre : List Migration) (m : Migration) (post : List Migration)
    (ss : List String) (f : String) (ts : List String) (w : World σ) (s1 : σ) (e : String)
    (hm : sel m = ss ++ f :: ts)
    (h : execAll db w.store ((pre.flatMap sel ++ ss).map plain) = some s1)
    (hf : (db.ExecContext s1 f []).2 = some e) :
    ∃ before, (runMigrations db sel (pre ++ m :: post) w).2.trace
      = before ++ [.print ("Running " ++ m.Name ++ "... ")]
          ++ (ss ++ [f]).map (fun q => Event.exec q []) ++ [.print "Failure :(\n"] := by
  induction pre generalizing w with
  | nil =>
    simp only [List.flatMap_nil, List.nil_append] at h
    obtain ⟨w1, hrun, _, _, _⟩ := runMigrationSQLContext_fail db m.Name ss f ts w s1 e h hf
    have htrace := runMigrationSQLContext_fail_trace db m.Name ss f ts w s1 e h hf
    rw [hrun] at htrace
    refine ⟨w.trace, ?_⟩
    simp only [List.nil_append, runMigrations, hm, hrun]
    exact htrace
  | cons p rest ih =>
    simp only [List.flatMap_cons, List.append_assoc, List.map_append, execAll_append,
      Option.bind_eq_some] at h
    obtain ⟨s0, h0, hrest⟩ := h
    obtain ⟨w0, hrun0, hst0, _, _⟩ := runMigrationSQLContext_ok db p.Name (sel p) w s0 h0
    obtain ⟨before, hbefore⟩ := ih w0 (by
      rw [hst0, List.map_append, execAll_append, Option.bind_eq_some]; exact hrest)
    refine ⟨before, ?_⟩
    simp only [List.cons_append, runMigrations, hrun0]
    exact hbefore


/-- C11, as stated, fails: on a fresh store that rejects `f2`, the error
returned while running `M2` is "error running migration: pq: division by
zero"; it does not contain the name `M2`, and it is the very same error when
the failing migration is called `X2` instead. -/
theorem failure_error_does_not_name_migration :
    (MigrateForwardToContext (packageEnv (rejecting "f2") approve) ""
        [⟨"M1", ["f1"], ["b1"]⟩, ⟨"M2", ["f2"], ["b2"]⟩] false start).1
      = some "error running migration: pq: division by zero" ∧
    Contains "error running migration: pq: division by zero" "M2" = false ∧
    (MigrateForwardToContext (packageEnv (rejecting "f2") approve) ""
        [⟨"M1", ["f1"], ["b1"]⟩, ⟨"X2", ["f2"], ["b2"]⟩] false start).1
      = (MigrateForwardToContext (packageEnv (rejecting "f2") approve) ""
        [⟨"M1", ["f1"], ["b1"]⟩, ⟨"M2", ["f2"], ["b2"]⟩] false start).1 := by
  decide

/-- C11, amended: when statement `f` of migration `m` is the first to fail,
with store error `e`, going forward or backward, with confirm off or with
confirm set and approved, the error returned carries `e`: its text is
exactly "error running migration: " followed by `e`.  The migration is
identified by name on standard output: the trace ends with the line
"Running m... ", the statements of `m` sent up to and including `f`, and
"Failure :(". -/
theorem failure_named_on_output (env : Env σ) (name : String)
    (allMigrations : List Migration) (confirm : Bool) (w w1 : World σ)
    (state : List MigrationRecord)
    (pre : List Migration) (m : Migration) (post : List Migration)
    (ss : List String) (f : String) (ts : List String) (s1 : σ) (e : String)
    (hstate : GetMigrationStateContext env.db w = (.ok state, w1))
    (hf : (env.db.ExecContext s1 f []).2 = some e) :
    (env.getForwardMigrationsToRun name state allMigrations = .ok (pre ++ m :: post) →
      (confirm = false ∨ env.getConfirm (pre ++ m :: post) "Forward" = none) →
      m.ForwardSQL = ss ++ f :: ts →
      execAll env.db w1.store ((pre.flatMap Migration.ForwardSQL ++ ss).map plain) = some s1 →
      ∃ before w2, MigrateForwardToContext env name allMigrations confirm w
          = (some ("error running migration: " ++ e), w2) ∧
        w2.trace = before ++ [.print ("Running " ++ m.Name ++ "... ")]
          ++ (ss ++ [f]).map (fun q => Event.exec q []) ++ [.print "Failure :(\n"]) ∧
    (allMigrations ≠ [] → state ≠ [] →
      env.getMigrationsToReverse name state allMigrations = .ok (pre ++ m :: post) →
      (confirm = false ∨ env.getConfirm (pre ++ m :: post) "Backward" = none) →
      m.BackwardSQL = ss ++ f :: ts →
      execAll env.db w1.store ((pre.flatMap Migration.BackwardSQL ++ ss).map plain) = some s1 →
      ∃ before w2, MigrateBackwardToContext env name allMigrations confirm w
          = (some ("error running migration: " ++ e), w2) ∧
        w2.trace = before ++ [.print ("Running " ++ m.Name ++ "... ")]
          ++ (ss ++ [f]).map (fun q => Event.exec q []) ++ [.print "Failure :(\n"]) := by
  constructor
  · intro hplan hconf hm hok
    obtain ⟨wc, hask, hst⟩ := askConfirm_pass env confirm (pre ++ m :: post) "Forward" w1 hconf
    have hokc : execAll env.db wc.store ((pre.flatMap Migration.ForwardSQL ++ ss).map plain)
        = some s1 := by rw [hst]; exact hok
    obtain ⟨w2, hrun, _⟩ :=
      runMigrations_fail env.db Migration.ForwardSQL pre m post ss f ts wc s1 e hm hokc hf
    obtain ⟨before, htrace⟩ :=
      runMigrations_fail_trace env.db Migration.ForwardSQL pre m post ss f ts wc s1 e hm hokc hf
    rw [hrun] at htrace
    refine ⟨before, w2, ?_, htrace⟩
    simp [MigrateForwardToContext, hstate, hplan, hask, hrun]
  · intro hall hne hplan hconf hm hok
    have hall0 : ¬ allMigrations.length = 0 := fun h => hall (List.length_eq_zero.mp h)
    have hne0 : ¬ state.length = 0 := fun h => hne (List.length_eq_zero.mp h)
    obtain ⟨wc, hask, hst⟩ := askConfirm_pass env confirm (pre ++ m :: post) "Backward" w1 hconf
    have hokc : execAll env.db wc.store ((pre.flatMap Migration.BackwardSQL ++ ss).map plain)
        = some s1 := by rw [hst]; exact hok
    obtain ⟨w2, hrun, _⟩ :=
      runMigrations_fail env.db Migration.BackwardSQL pre m post ss f ts wc s1 e hm hokc hf
    obtain ⟨before, htrace⟩ :=
      runMigrations_fail_trace env.db Migration.BackwardSQL pre m post ss f ts wc s1 e hm hokc hf
    rw [hrun] at htrace
    refine ⟨before, w2, ?_, htrace⟩
    simp [MigrateBackwardToContext, hall0, hstate, hne0, hplan, hask, hrun]

/-- Worked instance of the amended C11: going forward with confirm off at
the input of the counterexample, and going back to `M2` with confirm set and
approved on a store holding `M1 .. M3` that rejects `b2`. -/
theorem failure_named_on_output_witness :
    (∃ before w2, MigrateForwardToContext (packageEnv (rejecting "f2") approve) ""
        [⟨"M1", ["f1"], ["b1"]⟩, ⟨"M2", ["f2"], ["b2"]⟩] false start
        = (some ("error running migration: " ++ "pq: division by zero"), w2) ∧
      w2.trace = before ++ [.print ("Running " ++ "M2" ++ "... ")]
        ++ ([] ++ ["f2"]).map (fun q => Event.exec q []) ++ [.print "Failure :(\n"]) ∧
    (∃ before w2, MigrateBackwardToContext
        (packageEnv (holding ["M1", "M2", "M3"] "b2") approve) "M2" fiveMigrations true start
        = (some ("error running migration: " ++ "pq: refused"), w2) ∧
      w2.trace = before ++ [.print ("Running " ++ "M2" ++ "... ")]
        ++ ([] ++ ["b2"]).map (fun q => Event.exec q []) ++ [.print "Failure :(\n"]) :=
  ⟨(failure_named_on_output (packageEnv (rejecting "f2") approve) ""
      [⟨"M1", ["f1"], ["b1"]⟩, ⟨"M2", ["f2"], ["b2"]⟩] false start
      ⟨0, [.queryRow stateExistsSQL]⟩ []
      [⟨"M1", ["f1"], ["b1"]⟩] ⟨"M2", ["f2"], ["b2"]⟩ [] [] "f2" [] 1 "pq: division by zero"
      rfl (by decide)).1 (by decide) (Or.inl rfl) rfl (by decide),
   (failure_named_on_output (packageEnv (holding ["M1", "M2", "M3"] "b2") approve) "M2"
      fiveMigrations true start ⟨0, [.queryRow stateExistsSQL, .query stateRowsSQL]⟩
      [⟨"M1", 0, "pg"⟩, ⟨"M2", 0, "pg"⟩, ⟨"M3", 0, "pg"⟩] [⟨"M3", ["f3"], ["b3"]⟩]
      ⟨"M2", ["f2"], ["b2"]⟩ [] [] "b2" [] 1 "pq: refused" rfl (by decide)).2
      (by decide) (by decide) (by decide) (Or.inr rfl) rfl (by decide)⟩

/-! ## Numerals -/

theorem toDigitsCore_acc (fuel n : Nat) (ds : List Char) :
    Nat.toDigitsCore 10 fuel n ds = Nat.toDigitsCore 10 fuel n [] ++ ds := by
  induction fuel generalizing n ds with
  | zero => simp [Nat.toDigitsCore]
  | succ fuel ih =>
    simp only [Nat.toDigitsCore]
    by_cases h : n / 10 = 0
    · simp [h]
    · simp only [h, if_false]
      rw [ih (n / 10) (Nat.digitChar (n % 10) :: ds), ih (n / 10) [Nat.digitChar (n % 10)]]
      simp

theorem toDigitsCore_eq_fixedWidth (fuel n : Nat) (h : n < fuel) :
    ∃ L, 0 < L ∧ n < 10 ^ L ∧ Nat.toDigitsCore 10 fuel n [] = fixedWidth L n := by
  induction fuel generalizing n with
  | zero => omega
  | succ fuel ih =>
    by_cases hq : n / 10 = 0
    · refine ⟨1, by omega, by omega, ?_⟩
      simp [Nat.toDigitsCore, hq, fixedWidth]
    · obtain ⟨L, hL, hlt, heq⟩ := ih (n / 10) (by omega)
      refine ⟨L + 1, by omega, ?_, ?_⟩
      · rw [Nat.pow_succ]
        omega
      · simp only [Nat.toDigitsCore, hq, if_false, fixedWidth]
        rw [toDigitsCore_acc, heq]

theorem toDigits_eq_fixedWidth (n : Nat) :
    ∃ L, 0 < L ∧ n < 10 ^ L ∧ Nat.toDigits 10 n = fixedWidth L n :=
  toDigitsCore_eq_fixedWidth (n + 1) n (by omega)

theorem fixedWidth_length (width n : Nat) : (fixedWidth width n).length = width := by
  induction width generalizing n with
  | zero => rfl
  | succ width ih => simp [fixedWidth, ih]

theorem fixedWidth_zero (k : Nat) : fixedWidth k 0 = List.replicate k '0' := by
  induction k with
  | zero => rfl
  | succ k ih =>
    simp only [fixedWidth, Nat.zero_div, Nat.zero_mod, ih]
    rw [List.replicate_succ']
    rfl

theorem fixedWidth_pad (k L n : Nat) (h : n < 10 ^ L) :
    List.replicate k '0' ++ fixedWidth L n = fixedWidth (k + L) n := by
  induction L generalizing n with
  | zero =>
    have hn : n = 0 := by simpa using h
    simp [hn, fixedWidth, fixedWidth_zero]
  | succ L ih =>
    have hdiv : n / 10 < 10 ^ L := by
      rw [Nat.pow_succ] at h
      omega
    rw [← Nat.add_assoc]
    simp only [fixedWidth]
    rw [← ih (n / 10) hdiv, List.append_assoc]

theorem zeroPad_accepted (n d : Nat) (hd : d / 10 ≤ 1000000) :
    zeroPad (n : Int) d = String.mk (padZeros d (Nat.toDigits 10 n)) := by
  have hcap : ¬ (1000000 < d / 10) := by omega
  have hneg : ¬ ((n : Int) < 0) := by omega
  simp only [zeroPad, hcap, hneg, if_false, Int.toNat_ofNat]

theorem zeroPad_data (n d : Nat) (hd : d / 10 ≤ 1000000) :
    ∃ L, d ≤ L ∧ 0 < L ∧ n < 10 ^ L ∧ (zeroPad (n : Int) d).data = fixedWidth L n := by
  obtain ⟨L0, hpos, hlt, heq⟩ := toDigits_eq_fixedWidth n
  refine ⟨(d - L0) + L0, by omega, by omega, ?_, ?_⟩
  · exact Nat.lt_of_lt_of_le hlt (Nat.pow_le_pow_right (by omega) (by omega))
  · simp only [zeroPad_accepted n d hd, padZeros, heq, fixedWidth_length]
    exact fixedWidth_pad (d - L0) L0 n hlt

theorem lex_append_of_same_length {r : Char → Char → Prop} (xs ys s t : List Char)
    (h : List.Lex r xs ys) (hlen : xs.length = ys.length) : List.Lex r (xs ++ s) (ys ++ t) := by
  induction h with
  | nil => simp at hlen
  | cons _ ih =>
    simp only [List.length_cons, Nat.add_right_cancel_iff] at hlen
    exact List.Lex.cons (ih hlen)
  | rel hr => exact List.Lex.rel hr

theorem lex_append_left {r : Char → Char → Prop} (xs s t : List Char) (h : List.Lex r s t) :
    List.Lex r (xs ++ s) (xs ++ t) := by
  induction xs with
  | nil => exact h
  | cons x xs ih => exact List.Lex.cons ih

theorem digitChar_lt (i j : Nat) (hj : j < 10) (h : i < j) :
    Nat.digitChar i < Nat.digitChar j := by
  interval_cases j <;> interval_cases i <;> decide

theorem digitChar_isDigit (i : Nat) (hi : i < 10) : (Nat.digitChar i).isDigit = true := by
  interval_cases i <;> decide

theorem digitChar_value (i : Nat) (hi : i < 10) : (Nat.digitChar i).toNat - 48 = i := by
  interval_cases i <;> decide

theorem fixedWidth_lex (width a b : Nat) (hab : a < b) (hb : b < 10 ^ width) :
    List.Lex (· < ·) (fixedWidth width a) (fixedWidth width b) := by
  induction width generalizing a b with
  | zero =>
    simp at hb
    omega
  | succ width ih =>
    simp only [fixedWidth]
    rw [Nat.pow_succ] at hb
    by_cases hq : a / 10 < b / 10
    · exact lex_append_of_same_length _ _ _ _ (ih (a / 10) (b / 10) hq (by omega))
        (by rw [fixedWidth_length, fixedWidth_length])
    · have heq : a / 10 = b / 10 := by omega
      rw [heq]
      exact lex_append_left _ _ _
        (List.Lex.rel (digitChar_lt (a % 10) (b % 10) (by omega) (by omega)))

theorem fixedWidth_all_digits (width n : Nat) : ∀ c ∈ fixedWidth width n, c.isDigit = true := by
  induction width generalizing n with
  | zero => simp [fixedWidth]
  | succ width ih =>
    intro c hc
    simp only [fixedWidth, List.mem_append, List.mem_singleton] at hc
    rcases hc with hc | hc
    · exact ih (n / 10) c hc
    · rw [hc]
      exact digitChar_isDigit (n % 10) (by omega)

theorem digitsValue_snoc (ds : List Char) (c : Char) :
    digitsValue (ds ++ [c]) = digitsValue ds * 10 + (c.toNat - 48) := by
  simp [digitsValue, List.foldl_append]

theorem digitsValue_fixedWidth (width n : Nat) (h : n < 10 ^ width) :
    digitsValue (fixedWidth width n) = n := by
  induction width generalizing n with
  | zero =>
    have hn : n = 0 := by simpa using h
    simp [hn, fixedWidth, digitsValue]
  | succ width ih =>
    rw [Nat.pow_succ] at h
    simp only [fixedWidth]
    rw [digitsValue_snoc, ih (n / 10) (by omega), digitChar_value (n % 10) (by omega)]
    omega

theorem zeroPad_length_small (n d : Nat) (hd : 0 < d) (hcap : d / 10 ≤ 1000000)
    (h : n < 10 ^ d) : (zeroPad (n : Int) d).length = d := by
  have hlen : (Nat.toDigits 10 n).length ≤ d :=
    Nat.toDigitsCore_length 10 (by decide) (n + 1) n d h hd
  simp only [zeroPad_accepted n d hcap, padZeros, String.length,
    List.length_append, List.length_replicate]
  omega

/-! ## Order of generated names -/

theorem makeStubName_data (n : Nat) (label : String) :
    ∃ L, leadingDigits ≤ L ∧ 0 < L ∧ n < 10 ^ L ∧
      (zeroPad (n : Int) leadingDigits).data = fixedWidth L n ∧
      (makeStubName (n : Int) label).data = fixedWidth L n ++ '_' :: label.data := by
  obtain ⟨L, hle, hpos, hlt, hdata⟩ := zeroPad_data n leadingDigits (by decide)
  refine ⟨L, hle, hpos, hlt, hdata, ?_⟩
  simp only [makeStubName, String.data_append, hdata, List.append_assoc]
  rfl

/-- C16, as stated, fails: 99999 < 100000, yet the name generated for 100000
sorts before the name generated for 99999, because the numeral outgrows the
five padded places. -/
theorem stub_names_out_of_order_past_width :
    (99999 : Int) < 100000 ∧
    makeStubName 99999 "x" = "99999_x" ∧ makeStubName 100000 "y" = "100000_y" ∧
    ¬ (makeStubName 99999 "x" < makeStubName 100000 "y") ∧
    makeStubName 100000 "y" < makeStubName 99999 "x" := by
  have h1 : makeStubName 99999 "x" = "99999_x" := by decide
  have h2 : makeStubName 100000 "y" = "100000_y" := by decide
  refine ⟨by decide, h1, h2, ?_, ?_⟩
  · rw [h1, h2, String.lt_iff_toList_lt]
    decide
  · rw [h1, h2, String.lt_iff_toList_lt]
    decide

theorem makeStubName_lt (a b : Nat) (x y : String) (hab : a < b)
    (hlen : (zeroPad (a : Int) leadingDigits).length
      = (zeroPad (b : Int) leadingDigits).length) :
    makeStubName (a : Int) x < makeStubName (b : Int) y := by
  obtain ⟨La, _, _, _, hpa, hna⟩ := makeStubName_data a x
  obtain ⟨Lb, _, _, hltb, hpb, hnb⟩ := makeStubName_data b y
  have hL : La = Lb := by
    simp only [String.length, hpa, hpb, fixedWidth_length] at hlen
    exact hlen
  subst hL
  rw [String.lt_iff_toList_lt]
  show List.Lex (· < ·) (makeStubName (a : Int) x).data (makeStubName (b : Int) y).data
  rw [hna, hnb]
  exact lex_append_of_same_length _ _ _ _ (fixedWidth_lex La a b hab hltb)
    (by rw [fixedWidth_length, fixedWidth_length])

/-- C16, amended: for sequence numbers `a < b` whose zero-padded numerals
have the same length, in particular whenever `b < 10 ^ leadingDigits`, and
for all labels, the name generated for `a` is strictly smaller, in
lexicographic order, than the name generated for `b`. -/
theorem stub_names_ordered_at_equal_width (a b : Nat) (x y : String) (hab : a < b)
    (hw : b < 10 ^ leadingDigits ∨
      (zeroPad (a : Int) leadingDigits).length = (zeroPad (b : Int) leadingDigits).length) :
    makeStubName (a : Int) x < makeStubName (b : Int) y := by
  rcases hw with hb | hw
  · exact makeStubName_lt a b x y hab (by
      rw [zeroPad_length_small a leadingDigits (by decide) (by decide) (by omega),
        zeroPad_length_small b leadingDigits (by decide) (by decide) hb])
  · exact makeStubName_lt a b x y hab hw

/-- Worked instance of the amended C16: 2 and 10 within five places, and two
timestamps of fourteen digits. -/
theorem stub_names_ordered_at_equal_width_witness :
    makeStubName ((2 : Nat) : Int) "bar" < makeStubName ((10 : Nat) : Int) "a" ∧
    makeStubName ((20181106123456 : Nat) : Int) "z"
      < makeStubName ((20181106123457 : Nat) : Int) "a" :=
  ⟨stub_names_ordered_at_equal_width 2 10 "bar" "a" (by decide) (Or.inl (by decide)),
   stub_names_ordered_at_equal_width 20181106123456 20181106123457 "z" "a" (by decide)
     (Or.inr (by decide))⟩

/-! ## Latest number -/

theorem splitChars_ne_nil (sep : Char) (s : List Char) : splitChars sep s ≠ [] := by
  cases s with
  | nil => simp [splitChars]
  | cons c cs =>
    by_cases h : c = sep
    · simp [splitChars, h]
    · cases hs : splitChars sep cs <;> simp [splitChars, h, hs]

theorem splitChars_head (sep : Char) (ds rest : List Char) (h : ∀ c ∈ ds, c ≠ sep) :
    ∃ parts, splitChars sep (ds ++ sep :: rest) = ds :: parts := by
  induction ds with
  | nil => exact ⟨splitChars sep rest, by simp [splitChars]⟩
  | cons d ds ih =>
    obtain ⟨parts, hparts⟩ := ih (fun c hc => h c (List.mem_cons_of_mem _ hc))
    have hd : d ≠ sep := h d (by simp)
    exact ⟨parts, by simp [splitChars, hd, hparts]⟩

theorem digits_foldl_ge (ds : List Char) (n : Nat) :
    n ≤ ds.foldl (fun acc ch => acc * 10 + (ch.toNat - 48)) n := by
  induction ds generalizing n with
  | nil => exact Nat.le_refl _
  | cons c cs ih =>
    simp only [List.foldl_cons]
    exact Nat.le_trans (by omega) (ih _)

theorem parseDigits_digits (s : String) (ds : List Char) (n : Nat)
    (hall : ∀ c ∈ ds, c.isDigit = true)
    (hrange : ds.foldl (fun acc ch => acc * 10 + (ch.toNat - 48)) n < 2 ^ 63) :
    parseDigits s ds n = .ok (ds.foldl (fun acc ch => acc * 10 + (ch.toNat - 48)) n) := by
  induction ds generalizing n with
  | nil => rfl
  | cons c cs ih =>
    have hc : c.isDigit = true := hall c (by simp)
    simp only [List.foldl_cons] at hrange ⊢
    have hge := digits_foldl_ge cs (n * 10 + (c.toNat - 48))
    have hr : cs.foldl (fun acc ch => acc * 10 + (ch.toNat - 48)) (n * 10 + (c.toNat - 48))
        < 9223372036854775808 := by
      norm_num at hrange
      exact hrange
    have h1 : ¬ 1844674407370955162 ≤ n := by omega
    have h2 : ¬ 18446744073709551615 < n * 10 + (c.toNat - 48) := by omega
    have hstep : parseDigits s (c :: cs) n
        = parseDigits s cs (n * 10 + (c.toNat - 48)) := by
      simp [parseDigits, hc, h1, h2]
    rw [hstep]
    exact ih _ (fun d hd => hall d (List.mem_cons_of_mem _ hd)) hrange

theorem Atoi_digits (ds : List Char) (hne : ds ≠ []) (hall : ∀ c ∈ ds, c.isDigit = true)
    (hrange : digitsValue ds < 2 ^ 63) : Atoi (String.mk ds) = .ok (digitsValue ds : Int) := by
  cases ds with
  | nil => exact absurd rfl hne
  | cons c cs =>
    have hc : c.isDigit = true := hall c (by simp)
    have hminus : c ≠ '-' := by
      intro h
      rw [h] at hc
      exact absurd hc (by decide)
    have hplus : c ≠ '+' := by
      intro h
      rw [h] at hc
      exact absurd hc (by decide)
    have hbody : (match (String.mk (c :: cs)).data with
        | '-' :: rest => rest
        | '+' :: rest => rest
        | other => other) = c :: cs := by
      split
      · rename_i heq
        simp only [List.cons.injEq] at heq
        exact absurd heq.1 hminus
      · rename_i heq
        simp only [List.cons.injEq] at heq
        exact absurd heq.1 hplus
      · rfl
    have hscan := parseDigits_digits (String.mk (c :: cs)) (c :: cs) 0 hall hrange
    have hr : digitsValue (c :: cs) < 9223372036854775808 := by
      norm_num at hrange
      exact hrange
    have hhead : ¬ (String.mk (c :: cs)).data.head? = some '-' := by
      simp [hminus]
    unfold Atoi
    simp only [hbody]
    rw [hscan]
    change (if (c :: cs).isEmpty = true then _ else
      if (String.mk (c :: cs)).data.head? = some '-' then _
      else if digitsValue (c :: cs) < 2 ^ 63 then Except.ok (digitsValue (c :: cs) : Int)
        else _) = _
    rw [if_neg (by simp), if_neg hhead, if_pos hrange]

theorem getLatest_of_last (names : List String) (n : Nat) (label : String)
    (hrange : n < 2 ^ 63) :
    getLatestMigrationFileNumber (names ++ [makeStubName (n : Int) label]) = .ok (n : Int) := by
  obtain ⟨L, _, hpos, hlt, _, hdata⟩ := makeStubName_data n label
  obtain ⟨parts, hparts⟩ := splitChars_head '_' (fixedWidth L n) label.data (by
    intro c hc h
    have hd := fixedWidth_all_digits L n c hc
    rw [h] at hd
    exact absurd hd (by decide))
  have hne : fixedWidth L n ≠ [] := by
    intro h
    have hl := fixedWidth_length L n
    rw [h] at hl
    simp at hl
    omega
  have hval := digitsValue_fixedWidth L n hlt
  have hatoi := Atoi_digits (fixedWidth L n) hne (fixedWidth_all_digits L n) (by omega)
  rw [hval] at hatoi
  have hlast : (names ++ [makeStubName (n : Int) label]).getLast?
      = some (makeStubName (n : Int) label) := by simp
  simp only [getLatestMigrationFileNumber, hlast, Split, hdata, hparts, List.map_cons,
    List.headD_cons, hatoi]

/-- C20 (latest number round trip): for the empty list the latest number is
0 with no error, so that the first migration `foo` is named `00001_foo`; for
a list whose last name was generated from the number
`n` (an `int`, so below 2^63) and any label, also one with `_` in it, the
latest number is `n` with no error. -/
theorem latest_number_round_trip :
    getLatestMigrationFileNumber [] = .ok 0 ∧
    makeStubName (wrapInt (0 + 1)) "foo" = "00001_foo" ∧
    ∀ (names : List String) (n : Nat) (label : String), n < 2 ^ 63 →
      getLatestMigrationFileNumber (names ++ [makeStubName (n : Int) label]) = .ok (n : Int) :=
  ⟨rfl, by decide, getLatest_of_last⟩

/-- Worked instance of C20: after `00001_foo`, the name generated from 2 and
the label `a_b`. -/
theorem latest_number_round_trip_witness :
    getLatestMigrationFileNumber (["00001_foo"] ++ [makeStubName ((2 : Nat) : Int) "a_b"])
      = .ok ((2 : Nat) : Int) :=
  latest_number_round_trip.2.2 ["00001_foo"] 2 "a_b" (by decide)

/-! ## Auto-increment -/

theorem wrapInt_small (n : Int) (h0 : 0 ≤ n) (h : n < 2 ^ 63) : wrapInt n = n := by
  unfold wrapInt
  norm_num at h ⊢
  omega

theorem last_key_is_greatest {α : Type} (f : α → String) (l : List α) (hne : l ≠ [])
    (hs : (l.map f).Pairwise (· ≤ ·)) : ∀ e ∈ l, f e ≤ f (l.getLast hne) := by
  intro e he
  have hsplit := List.dropLast_append_getLast hne
  rw [← hsplit] at he
  rcases List.mem_append.mp he with hin | hin
  · rw [← hsplit, List.map_append, List.pairwise_append] at hs
    exact hs.2.2 (f e) (List.mem_map_of_mem f hin) (f (l.getLast hne))
      (List.mem_singleton.mpr rfl)
  · rw [List.mem_singleton.mp hin]

/-- C17, as stated, fails.  The names generated from 100000 and 99999 are in
ascending order as listed, yet the latest number read off the last name is
99999, not the largest number 100000, so the next number, 100000, repeats an
existing one.  And after the largest `int` the next number wraps around to
the smallest. -/
theorem latest_number_not_largest_past_width :
    [makeStubName 100000 "a", makeStubName 99999 "b"] = ["100000_a", "99999_b"] ∧
    ("100000_a" : String) < "99999_b" ∧
    getLatestMigrationFileNumber [makeStubName 100000 "a", makeStubName 99999 "b"]
      = .ok 99999 ∧
    wrapInt (99999 + 1) = 100000 ∧
    getLatestMigrationFileNumber [makeStubName 9223372036854775807 "a"]
      = .ok 9223372036854775807 ∧
    wrapInt (9223372036854775807 + 1) < 9223372036854775807 := by
  refine ⟨by decide, ?_, by decide, by decide, by decide, by decide⟩
  rw [String.lt_iff_toList_lt]
  decide

/-- C17, amended: for a non-empty list of generated names in ascending
order whose zero-padded numerals all have the same length (as they do while
every number is below `10 ^ leadingDigits`), with every number below the
largest `int`, the latest number is a number of the list, no number of the
list exceeds it, and the number `NewMigration` assigns, the latest plus one,
is greater than every number of the list; the new directory is named from
that number. -/
theorem latest_number_is_largest_at_equal_width (entries : List (Nat × String))
    (hne : entries ≠ [])
    (hsorted : (entries.map (fun e => makeStubName (e.1 : Int) e.2)).Pairwise (· ≤ ·))
    (hwidth : ∀ e ∈ entries, ∀ e2 ∈ entries,
      (zeroPad (e.1 : Int) leadingDigits).length = (zeroPad (e2.1 : Int) leadingDigits).length)
    (hint : ∀ e ∈ entries, e.1 + 1 < 2 ^ 63) :
    ∃ k : Nat,
      getLatestMigrationFileNumber (entries.map (fun e => makeStubName (e.1 : Int) e.2))
        = .ok (k : Int) ∧
      (∃ e ∈ entries, e.1 = k) ∧ (∀ e ∈ entries, e.1 ≤ k) ∧
      (∀ e ∈ entries, (e.1 : Int) < wrapInt ((k : Int) + 1)) ∧
      (∀ (dir : ReadDirFS) (label : String),
        getMigrationDirectoryNames dir
          = .ok (entries.map (fun e => makeStubName (e.1 : Int) e.2)) →
        newMigrationName dir label = .ok (makeStubName (wrapInt ((k : Int) + 1)) label)) := by
  have hsplit := List.dropLast_append_getLast hne
  have hlastmem : entries.getLast hne ∈ entries := List.getLast_mem hne
  have hle : ∀ e ∈ entries, e.1 ≤ (entries.getLast hne).1 := by
    intro e he
    by_contra hgt
    have hlt : (entries.getLast hne).1 < e.1 := by omega
    have hnames := makeStubName_lt (entries.getLast hne).1 e.1 (entries.getLast hne).2 e.2
      hlt (hwidth _ hlastmem e he)
    have hord : makeStubName (e.1 : Int) e.2
        ≤ makeStubName ((entries.getLast hne).1 : Int) (entries.getLast hne).2 :=
      @last_key_is_greatest (Nat × String) (fun e => makeStubName (e.1 : Int) e.2) entries hne
        hsorted e he
    exact absurd hnames (not_lt.mpr hord)
  have hk := hint _ hlastmem
  have hlatest : getLatestMigrationFileNumber
      (entries.map (fun e => makeStubName (e.1 : Int) e.2))
      = .ok ((entries.getLast hne).1 : Int) := by
    have hmap : entries.map (fun e => makeStubName (e.1 : Int) e.2)
        = (entries.dropLast.map (fun e => makeStubName (e.1 : Int) e.2))
          ++ [makeStubName ((entries.getLast hne).1 : Int) (entries.getLast hne).2] := by
      conv_lhs => rw [← hsplit]
      simp
    rw [hmap]
    exact getLatest_of_last _ _ _ (by omega)
  refine ⟨(entries.getLast hne).1, hlatest, ⟨_, hlastmem, rfl⟩, hle, ?_, ?_⟩
  rotate_left
  · intro dir label hnames
    simp only [newMigrationName, hnames, hlatest]
  · intro e he
    rw [wrapInt_small _ (by omega) (by
      have : ((entries.getLast hne).1 : Int) + 1 < 2 ^ 63 := by exact_mod_cast hk
      exact this)]
    have := hle e he
    omega

/-- Worked instance of the amended C17: `TestAutoNumber`, where `00001_foo`
exists and the next migration gets the number 2; here with `00002_bar` too. -/
theorem latest_number_is_largest_at_equal_width_witness :
    ∃ k : Nat,
      getLatestMigrationFileNumber
        ([((1 : Nat), "foo"), ((2 : Nat), "bar")].map (fun e => makeStubName (e.1 : Int) e.2))
        = .ok (k : Int) ∧
      (∃ e ∈ [((1 : Nat), "foo"), ((2 : Nat), "bar")], e.1 = k) ∧
      (∀ e ∈ [((1 : Nat), "foo"), ((2 : Nat), "bar")], e.1 ≤ k) ∧
      (∀ e ∈ [((1 : Nat), "foo"), ((2 : Nat), "bar")], (e.1 : Int) < wrapInt ((k : Int) + 1)) :=
  match latest_number_is_largest_at_equal_width [(1, "foo"), (2, "bar")] (by decide)
    (by
      have h : [((1 : Nat), "foo"), ((2 : Nat), "bar")].map
          (fun e => makeStubName (e.1 : Int) e.2) = ["00001_foo", "00002_bar"] := by decide
      rw [h]
      simp only [List.pairwise_cons, List.mem_singleton, forall_eq, List.not_mem_nil,
        false_implies, implies_true, List.Pairwise.nil, and_true, String.le_iff_toList_le]
      decide)
    (by decide) (by decide) with
  | ⟨k, h1, h2, h3, h4, _⟩ => ⟨k, h1, h2, h3, h4⟩

/-! ## Loader -/

theorem isMigration_iff (name : String) : isMigration name = true ↔ MigrationName name := by
  constructor
  · intro h
    simp only [isMigration, Bool.and_eq_true, decide_eq_true_eq] at h
    obtain ⟨hlen, hrest⟩ := h
    split at hrest
    · rename_i label hdrop
      refine ⟨name.data.takeWhile Char.isDigit, label, ?_, hlen, ?_, ?_⟩
      · rw [← hdrop, List.takeWhile_append_dropWhile]
      · intro c hc
        exact List.mem_takeWhile_imp hc
      · intro hmem
        have := (List.all_eq_true.mp hrest) _ hmem
        simp at this
    · exact absurd hrest (by decide)
  · rintro ⟨ds, label, hdata, hlen, hdigits, hnl⟩
    have hunder : ¬ (('_' : Char).isDigit = true) := by decide
    have htake : name.data.takeWhile Char.isDigit = ds := by
      rw [hdata, List.takeWhile_append_of_pos hdigits, List.takeWhile_cons_of_neg hunder]
      simp
    have hdrop : name.data.dropWhile Char.isDigit = '_' :: label := by
      rw [hdata, List.dropWhile_append_of_pos hdigits, List.dropWhile_cons_of_neg hunder]
    simp only [isMigration, htake, hdrop, Bool.and_eq_true, decide_eq_true_eq]
    refine ⟨hlen, ?_⟩
    rw [List.all_eq_true]
    intro c hc
    have hne : c ≠ '\n' := fun h => hnl (h ▸ hc)
    simpa using hne

theorem readEntries_name (dir : ReadDirFS) (migrationName : String) (entries : List DirEntry)
    (m m2 : Migration) (h : readEntries dir migrationName entries m = .done m2) :
    m2.Name = m.Name := by
  induction entries generalizing m with
  | nil =>
    simp only [readEntries, Outcome.done.injEq] at h
    rw [← h]
  | cons e rest ih =>
    simp only [readEntries] at h
    split_ifs at h
    · cases hr : readEntry dir migrationName e.Name with
      | panic msg => simp [hr] at h
      | done text =>
        simp only [hr] at h
        have hn := ih _ h
        exact hn
    · cases hr : readEntry dir migrationName e.Name with
      | panic msg => simp [hr] at h
      | done text =>
        simp only [hr] at h
        have hn := ih _ h
        exact hn
    · exact ih _ h
    · exact ih _ h

theorem readMigration_name (dir : ReadDirFS) (migrationName : String) (m : Migration)
    (h : readMigration dir migrationName = .done (m, none)) : m.Name = migrationName := by
  unfold readMigration at h
  cases hl : dir.ReadDir migrationName with
  | error err => simp [hl] at h
  | ok entries =>
    simp only [hl] at h
    cases hr : readEntries dir migrationName entries ⟨migrationName, [], []⟩ with
    | panic msg => simp [hr] at h
    | done m2 =>
      simp only [hr, Outcome.done.injEq, Prod.mk.injEq, and_true] at h
      rw [← h]
      exact readEntries_name dir migrationName entries _ m2 hr

theorem readMigrations_names (dir : ReadDirFS) (names : List String)
    (acc migs : List Migration) (h : readMigrations dir names acc = .done (.ok migs)) :
    migs.map Migration.Name = acc.map Migration.Name ++ names := by
  induction names generalizing acc with
  | nil =>
    simp only [readMigrations, Outcome.done.injEq, Except.ok.injEq] at h
    simp [h]
  | cons n rest ih =>
    simp only [readMigrations] at h
    cases hr : readMigration dir n with
    | panic msg => simp [hr] at h
    | done r =>
      obtain ⟨m, err⟩ := r
      cases err with
      | some e => simp [hr] at h
      | none =>
        simp only [hr] at h
        rw [ih _ h, List.map_append, List.map_cons, List.map_nil,
          readMigration_name dir n m hr]
        simp

/-- C18, as stated, fails: in the folder of `TestReadMigrations` extended by
the sub-directory `00003_a<line feed>b`, that entry is a directory whose name
is five decimal digits, then `_`, then a label, and yet it is left out,
because `.` in the pattern does not match a line feed. -/
theorem directory_with_line_feed_is_left_out :
    testFolder.ReadDir "." = .ok [⟨"00001_foo", true⟩, ⟨"00002_bar", true⟩,
      ⟨"00003_a\nb", true⟩, ⟨"00004_file", false⟩, ⟨"00005_sos", true⟩,
      ⟨"20181106123456_baz", true⟩, ⟨"other_dir", true⟩] ∧
    ("00003_a\nb" : String) = "00003" ++ "_" ++ "a\nb" ∧
    ("00003" : String).data.all Char.isDigit = true ∧
    leadingDigits ≤ ("00003" : String).length ∧
    getMigrationDirectoryNames testFolder
      = .ok ["00001_foo", "00002_bar", "00005_sos", "20181106123456_baz"] ∧
    "00003_a\nb" ∉ ["00001_foo", "00002_bar", "00005_sos", "20181106123456_baz"] := by
  decide

/-- C18, amended: the names returned are exactly, and in listing order, the
names of the entries that are directories and whose name matches the
migration pattern, that is: at least `leadingDigits` decimal digits, then
`_`, then a label without a line feed.  They are ascending whenever the
listing is, and they are the `Name` fields of what `ReadMigrationFS`
returns. -/
theorem directory_names_are_matching_directories (dir : ReadDirFS) (files : List DirEntry)
    (hlist : dir.ReadDir "." = .ok files) :
    getMigrationDirectoryNames dir
      = .ok ((files.filter (fun file => file.IsDir && isMigration file.Name)).map
          DirEntry.Name) ∧
    (∀ name, isMigration name = true ↔ MigrationName name) ∧
    ((files.map DirEntry.Name).Pairwise (· < ·) →
      ((files.filter (fun file => file.IsDir && isMigration file.Name)).map
        DirEntry.Name).Pairwise (· < ·)) ∧
    (∀ migs, ReadMigrationFS dir = .done (.ok migs) →
      migs.map Migration.Name
        = (files.filter (fun file => file.IsDir && isMigration file.Name)).map
            DirEntry.Name) := by
  have hnames : getMigrationDirectoryNames dir
      = .ok ((files.filter (fun file => file.IsDir && isMigration file.Name)).map
          DirEntry.Name) := by
    simp [getMigrationDirectoryNames, hlist]
  refine ⟨hnames, isMigration_iff, ?_, ?_⟩
  · intro hsorted
    exact List.Pairwise.sublist ((List.filter_sublist files).map DirEntry.Name) hsorted
  · intro migs hread
    simp only [ReadMigrationFS, hnames] at hread
    simpa using readMigrations_names dir _ [] migs hread

/-- Worked instance of the amended C18: the folder of `TestReadMigrations`,
extended; `other_dir`, the regular file and the name with a line feed are
left out. -/
theorem directory_names_are_matching_directories_witness :
    getMigrationDirectoryNames testFolder
      = .ok (([⟨"00001_foo", true⟩, ⟨"00002_bar", true⟩, ⟨"00003_a\nb", true⟩,
          ⟨"00004_file", false⟩, ⟨"00005_sos", true⟩, ⟨"20181106123456_baz", true⟩,
          ⟨"other_dir", true⟩].filter (fun file => file.IsDir && isMigration file.Name)).map
          DirEntry.Name) :=
  (directory_names_are_matching_directories testFolder
    [⟨"00001_foo", true⟩, ⟨"00002_bar", true⟩, ⟨"00003_a\nb", true⟩, ⟨"00004_file", false⟩,
      ⟨"00005_sos", true⟩, ⟨"20181106123456_baz", true⟩, ⟨"other_dir", true⟩] rfl).1

theorem readEntries_eq (dir : ReadDirFS) (migrationName : String) (entries : List DirEntry)
    (m : Migration) (content : String → String)
    (hread : ∀ e ∈ entries, HasSuffix e.Name ".sql" = true →
      dir.Open migrationName e.Name = .ok (.ok (content e.Name))) :
    readEntries dir migrationName entries m
      = .done ⟨m.Name,
          m.ForwardSQL ++ (entries.filter marksForward).map (fun e => content e.Name),
          m.BackwardSQL ++ (entries.filter marksBackward).map (fun e => content e.Name)⟩ := by
  induction entries generalizing m with
  | nil => simp [readEntries]
  | cons e rest ih =>
    have hrest := fun (m2 : Migration) =>
      ih m2 (fun e2 he2 hs => hread e2 (List.mem_cons_of_mem _ he2) hs)
    by_cases hs : HasSuffix e.Name ".sql" = true
    · have hopen := hread e (by simp) hs
      by_cases hfw : Contains e.Name "forward" = true
      · simp [readEntries, hs, hfw, readEntry, hopen, hrest, marksForward, marksBackward]
      · by_cases hbw : Contains e.Name "backward" = true
        · simp [readEntries, hs, hfw, hbw, readEntry, hopen, hrest, marksForward,
            marksBackward]
        · simp [readEntries, hs, hfw, hbw, hrest, marksForward, marksBackward]
    · simp [readEntries, hs, hrest, marksForward, marksBackward]

/-- C19 (statement files of one migration): when the files of the migration
directory can be read, `readMigration` returns, with no error, ForwardSQL as
the contents, in listing order, of exactly the files whose name ends in
`.sql` and contains `forward`, and BackwardSQL as the contents, in listing
order, of exactly the files whose name ends in `.sql`, contains `backward`
and does not contain `forward`.  No file is in both lists, and a file
without the `.sql` suffix is in neither. -/
theorem statement_files_by_name (dir : ReadDirFS) (migrationName : String)
    (entries : List DirEntry) (content : String → String)
    (hlist : dir.ReadDir migrationName = .ok entries)
    (hread : ∀ e ∈ entries, HasSuffix e.Name ".sql" = true →
      dir.Open migrationName e.Name = .ok (.ok (content e.Name))) :
    readMigration dir migrationName
      = .done (⟨migrationName,
          (entries.filter marksForward).map (fun e => content e.Name),
          (entries.filter marksBackward).map (fun e => content e.Name)⟩, none) ∧
    (∀ e : DirEntry, ¬ (marksForward e = true ∧ marksBackward e = true)) ∧
    (∀ e : DirEntry, HasSuffix e.Name ".sql" = false →
      marksForward e = false ∧ marksBackward e = false) := by
  refine ⟨?_, ?_, ?_⟩
  · simp [readMigration, hlist, readEntries_eq dir migrationName entries _ content hread]
  · intro e h
    simp only [marksForward, marksBackward, Bool.and_eq_true, Bool.not_eq_true'] at h
    rw [h.1.2] at h
    exact absurd h.2.2 (by decide)
  · intro e h
    simp [marksForward, marksBackward, h]

/-- Worked instance of C19: the directory `00005_sos` of `TestReadMigrations`
with three more files: one whose name holds both words, one without the
`.sql` suffix, and one with `.sql` inside the name only. -/
theorem statement_files_by_name_witness :
    readMigration testFolder "00005_sos"
      = .done (⟨"00005_sos",
          ["00005_sos/forward_1.sql", "00005_sos/forward_2.sql",
            "00005_sos/forward_backward.sql"],
          ["00005_sos/backward.sql"]⟩, none) :=
  (statement_files_by_name testFolder "00005_sos"
    [⟨"backward.sql", false⟩, ⟨"forward_1.sql", false⟩, ⟨"forward_2.sql", false⟩,
      ⟨"forward_backward.sql", false⟩, ⟨"notes.txt", false⟩, ⟨"forward.sql.bak", false⟩]
    (fun f => "00005_sos" ++ "/" ++ f) rfl (fun _ _ _ => rfl)).1

/-! ## Zero padding -/

theorem decimal_nonneg (n : Nat) : decimal (n : Int) = String.mk (Nat.toDigits 10 n) := by
  have hneg : ¬ ((n : Int) < 0) := by omega
  simp only [decimal, hneg, if_false, Int.toNat_ofNat]

/-- C21, as stated, fails: at the width 2147483648 `fmt` does not read a
width at all, so the result is not the number 42 padded to that length but
the text `%!(NOVERB)%!(EXTRA int=42)`: 26 characters, not all of them
digits. -/
theorem zero_pad_width_beyond_fmt :
    zeroPad 42 2147483648 = "%!(NOVERB)%!(EXTRA int=42)" ∧
    (zeroPad 42 2147483648).length = 26 ∧
    ¬ ((zeroPad 42 2147483648).length = max 2147483648 (decimal 42).length) ∧
    (zeroPad 42 2147483648).data.all Char.isDigit = false := by
  decide

/-- C21, amended: for every number `n >= 0` and every width `d` that `fmt`
reads as a width (`d / 10 <= 10^6`, so every width up to 10000009),
`zeroPad(n, d)` is the decimal numeral of `n` preceded by exactly
`d - len` characters `0` (none when `len >= d`), where `len` is the length
of the numeral; its length is `max(d, len)`, it holds decimal digits only,
its value is `n`, `Atoi` reads it back as `n`, and nothing of the numeral is
cut off: a 14-digit timestamp is kept whole and 1 becomes `00001` at width
5. -/
theorem zero_pad_is_padded_numeral (n d : Nat) (hd : d / 10 ≤ 1000000) :
    (zeroPad (n : Int) d).data
      = List.replicate (d - (decimal (n : Int)).length) '0' ++ (decimal (n : Int)).data ∧
    (zeroPad (n : Int) d).length = max d (decimal (n : Int)).length ∧
    (∀ c ∈ (zeroPad (n : Int) d).data, c.isDigit = true) ∧
    digitsValue (zeroPad (n : Int) d).data = n ∧
    (n < 2 ^ 63 → Atoi (zeroPad (n : Int) d) = .ok (n : Int)) ∧
    zeroPad 1 5 = "00001" ∧ zeroPad 20181106123456 5 = "20181106123456" := by
  obtain ⟨L, _, hpos, hlt, hdata⟩ := zeroPad_data n d hd
  have hval : digitsValue (zeroPad (n : Int) d).data = n := by
    rw [hdata]
    exact digitsValue_fixedWidth L n hlt
  have hdigits : ∀ c ∈ (zeroPad (n : Int) d).data, c.isDigit = true := by
    rw [hdata]
    exact fixedWidth_all_digits L n
  refine ⟨?_, ?_, hdigits, hval, ?_, by decide, by decide⟩
  · simp only [zeroPad_accepted n d hd, decimal_nonneg, padZeros, String.length]
  · simp only [zeroPad_accepted n d hd, decimal_nonneg, padZeros, String.length,
      List.length_append, List.length_replicate]
    omega
  · intro hrange
    have hne : (zeroPad (n : Int) d).data ≠ [] := by
      intro h
      have hl := fixedWidth_length L n
      rw [← hdata, h] at hl
      simp at hl
      omega
    have hatoi := Atoi_digits (zeroPad (n : Int) d).data hne hdigits (by omega)
    rw [hval] at hatoi
    exact hatoi

/-- Worked instance of the amended C21: 1 at width 5, and a 14-digit
timestamp at width 5. -/
theorem zero_pad_is_padded_numeral_witness :
    (zeroPad ((1 : Nat) : Int) 5).length = max 5 (decimal ((1 : Nat) : Int)).length ∧
    Atoi (zeroPad ((1 : Nat) : Int) 5) = .ok ((1 : Nat) : Int) ∧
    (zeroPad ((20181106123456 : Nat) : Int) 5).length
      = max 5 (decimal ((20181106123456 : Nat) : Int)).length ∧
    Atoi (zeroPad ((20181106123456 : Nat) : Int) 5) = .ok ((20181106123456 : Nat) : Int) :=
  ⟨(zero_pad_is_padded_numeral 1 5 (by decide)).2.1,
   (zero_pad_is_padded_numeral 1 5 (by decide)).2.2.2.2.1 (by decide),
   (zero_pad_is_padded_numeral 20181106123456 5 (by decide)).2.1,
   (zero_pad_is_padded_numeral 20181106123456 5 (by decide)).2.2.2.2.1 (by decide)⟩

/-! ## Generated names and the loader -/

theorem Atoi_nonneg (s : String) (v : Int) (hhead : ¬ s.data.head? = some '-')
    (h : Atoi s = .ok v) : 0 ≤ v := by
  unfold Atoi at h
  dsimp only at h
  split at h
  · cases h
  · split at h
    · cases h
    · split at h
      · cases h
        exact Int.ofNat_nonneg _
      · cases h

theorem latest_nonneg_of_migrations (names : List String) (latest : Int)
    (hall : ∀ name ∈ names, isMigration name = true)
    (h : getLatestMigrationFileNumber names = .ok latest) : 0 ≤ latest := by
  unfold getLatestMigrationFileNumber at h
  cases hlast : names.getLast? with
  | none =>
    rw [hlast] at h
    cases h
    exact Int.le_refl 0
  | some last =>
    rw [hlast] at h
    obtain ⟨ds, label, hdata, hlen, hdigits, _⟩ :=
      (isMigration_iff last).mp (hall last (List.mem_of_getLast?_eq_some hlast))
    obtain ⟨parts, hparts⟩ := splitChars_head '_' ds label (by
      intro c hc hsep
      have hd := hdigits c hc
      rw [hsep] at hd
      exact absurd hd (by decide))
    have hsplit : (Split last '_').headD "" = String.mk ds := by
      simp only [Split, hdata, hparts, List.map_cons, List.headD_cons]
    simp only [hsplit] at h
    have hhead : ¬ (String.mk ds).data.head? = some '-' := by
      cases ds with
      | nil => simp
      | cons d rest =>
        intro hd
        have hdig := hdigits d (by simp)
        simp only [List.head?_cons, Option.some.injEq] at hd
        rw [hd] at hdig
        exact absurd hdig (by decide)
    cases hatoi : Atoi (String.mk ds) with
    | error err =>
      rw [hatoi] at h
      cases h
    | ok num =>
      rw [hatoi] at h
      cases h
      exact Atoi_nonneg (String.mk ds) latest hhead hatoi

theorem isMigration_makeStubName (n : Nat) (label : String) (hnl : '\n' ∉ label.data) :
    isMigration (makeStubName (n : Int) label) = true := by
  obtain ⟨L, hle, _, _, _, hdata⟩ := makeStubName_data n label
  exact (isMigration_iff _).mpr ⟨fixedWidth L n, label.data, hdata,
    by rw [fixedWidth_length]; exact hle, fixedWidth_all_digits L n, hnl⟩

theorem pickedUp_of_isMigration (name : String) (h : isMigration name = true) :
    PickedUp name := by
  intro dir files hlist hmem
  refine ⟨(files.filter (fun file => file.IsDir && isMigration file.Name)).map DirEntry.Name,
    by simp only [getMigrationDirectoryNames, hlist], ?_⟩
  exact List.mem_map.mpr ⟨⟨name, true⟩, List.mem_filter.mpr ⟨hmem, by simp [h]⟩, rfl⟩

theorem getMigrationDirectoryNames_all (dir : ReadDirFS) (names : List String)
    (h : getMigrationDirectoryNames dir = .ok names) :
    ∀ name ∈ names, isMigration name = true := by
  unfold getMigrationDirectoryNames at h
  cases hlist : dir.ReadDir "." with
  | error err =>
    rw [hlist] at h
    cases h
  | ok files =>
    rw [hlist] at h
    cases h
    intro name hname
    obtain ⟨file, hfile, hfname⟩ := List.mem_map.mp hname
    have hkeep := (List.mem_filter.mp hfile).2
    simp only [Bool.and_eq_true] at hkeep
    rw [← hfname]
    exact hkeep.2

/-- C22, as stated, fails: in a folder whose latest migration has the largest
`int` as its number, `NewMigration` with the label `c` names its directory
`-9223372036854775808_c`, the number having wrapped around; that name does
not match the migration pattern, and the listing of the folder with the new
directory in it yields the old name only, so the new directory is not picked
up. -/
theorem new_directory_past_largest_int_is_left_out :
    getMigrationDirectoryNames maxIntFolder = .ok ["9223372036854775807_a"] ∧
    newMigrationName maxIntFolder "c" = .ok "-9223372036854775808_c" ∧
    isMigration "-9223372036854775808_c" = false ∧
    getMigrationDirectoryNames maxIntFolderAfter = .ok ["9223372036854775807_a"] ∧
    ¬ PickedUp "-9223372036854775808_c" := by
  refine ⟨by decide, by decide, by decide, by decide, ?_⟩
  intro h
  obtain ⟨names, hnames, hmem⟩ := h maxIntFolderAfter
    [⟨"-9223372036854775808_c", true⟩, ⟨"9223372036854775807_a", true⟩] rfl (by decide)
  have heq : getMigrationDirectoryNames maxIntFolderAfter = .ok ["9223372036854775807_a"] := by
    decide
  rw [heq] at hnames
  cases hnames
  exact absurd hmem (by decide)

/-- C22, amended: for every number `n >= 0` and every label without a line
feed, the generated name matches the migration pattern; so the directory
`InitMigration` creates is picked up by `getMigrationDirectoryNames`, and so
is the directory `NewMigration` creates for such a label while the latest
number of the folder is below the largest `int`: `NewMigration` then names
the directory from the latest number plus one, and that name matches the
pattern. -/
theorem created_directories_are_picked_up :
    (∀ (n : Nat) (label : String), '\n' ∉ label.data →
      isMigration (makeStubName (n : Int) label) = true ∧
        PickedUp (makeStubName (n : Int) label)) ∧
    (isMigration initMigrationName = true ∧ PickedUp initMigrationName) ∧
    (∀ (dir : ReadDirFS) (label : String) (names : List String) (latest : Int),
      '\n' ∉ label.data →
      getMigrationDirectoryNames dir = .ok names →
      getLatestMigrationFileNumber names = .ok latest →
      latest < 2 ^ 63 - 1 →
      newMigrationName dir label = .ok (makeStubName (latest + 1) label) ∧
        isMigration (makeStubName (latest + 1) label) = true ∧
        PickedUp (makeStubName (latest + 1) label)) := by
  refine ⟨fun n label hnl => ⟨isMigration_makeStubName n label hnl,
      pickedUp_of_isMigration _ (isMigration_makeStubName n label hnl)⟩,
    ⟨isMigration_makeStubName 1 "init" (by decide),
      pickedUp_of_isMigration _ (isMigration_makeStubName 1 "init" (by decide))⟩, ?_⟩
  intro dir label names latest hnl hnames hlatest hbound
  have h0 : 0 ≤ latest :=
    latest_nonneg_of_migrations names latest (getMigrationDirectoryNames_all dir names hnames)
      hlatest
  have hwrap : wrapInt (latest + 1) = latest + 1 :=
    wrapInt_small (latest + 1) (by omega) (by omega)
  have hnat : latest + 1 = (((latest + 1).toNat : Nat) : Int) :=
    (Int.toNat_of_nonneg (by omega)).symm
  have hmatch : isMigration (makeStubName (latest + 1) label) = true := by
    rw [hnat]
    exact isMigration_makeStubName _ label hnl
  refine ⟨?_, hmatch, pickedUp_of_isMigration _ hmatch⟩
  simp only [newMigrationName, hnames, hlatest, hwrap]

/-- Worked instance of the amended C22: in the folder of `TestReadMigrations`
the latest number is 20181106123456, and `NewMigration` with the label `qux`
names its directory `20181106123457_qux`, which matches the pattern. -/
theorem created_directories_are_picked_up_witness :
    newMigrationName testFolder "qux" = .ok (makeStubName (20181106123456 + 1) "qux") ∧
    isMigration (makeStubName (20181106123456 + 1) "qux") = true ∧
    PickedUp (makeStubName (20181106123456 + 1) "qux") :=
  created_directories_are_picked_up.2.2 testFolder "qux"
    ["00001_foo", "00002_bar", "00005_sos", "20181106123456_baz"] 20181106123456
    (by decide) (by decide) (by decide) (by decide)

end Pomegranate
